import Mathlib

/-!
Verification of the token issuance/redemption core of `app.py` (sheets-app).

Python strings are modelled as `List Char`; Python `int` as Lean `Int`
(Python integers are unbounded).  Worksheet rows are modelled as lists of
records; the gspread transport (which can raise on network/auth failure) is
modelled by explicit fault parameters injected at the two write calls of the
redemption handler.
-/

namespace SheetsApp

/-- Model of a Python string: a list of characters. -/
abbrev Str := List Char

/-- Coercion helper from Lean string literals to the model. -/
def str (s : String) : Str := s.data

/-- Model of Python `s.split(sep)` for a one-character separator `sep`:
splits at every occurrence; `"".split(sep) == [""]`. -/
def splitOnChar (sep : Char) : Str → List Str
  | [] => [[]]
  | c :: cs =>
    match splitOnChar sep cs with
    | [] => [[]]
    | w :: ws => if c = sep then [] :: w :: ws else (c :: w) :: ws

/-- Model of Python `p.split(sep, 1)` guarded by `sep in p`: returns
`some (before, after)` splitting at the first occurrence of `sep`, and
`none` when `sep` does not occur in `p`. -/
def splitFirst (sep : Char) : Str → Option (Str × Str)
  | [] => none
  | c :: cs =>
    if c = sep then some ([], cs)
    else (splitFirst sep cs).map (fun q => (c :: q.1, q.2))

/-- Model of Python `payload.startswith("MTK|")`. -/
def hasMagic : Str → Bool
  | 'M' :: 'T' :: 'K' :: '|' :: _ => true
  | _ => false

/-- Characters Python `str.strip()` and `int()` treat as whitespace
(the ASCII ones; the app only ever passes ASCII here). -/
def isPyWs (c : Char) : Bool :=
  c = ' ' || c = '\t' || c = '\n' || c = '\r' || c = '\x0b' || c = '\x0c'

/-- Model of Python `s.strip()`: drop leading and trailing whitespace. -/
def pyStrip (s : Str) : Str :=
  ((s.dropWhile isPyWs).reverse.dropWhile isPyWs).reverse

/-- Numeric value of a decimal digit character. -/
def digitVal (c : Char) : Nat := c.toNat - 48

/-- Digit run with single underscores allowed between digits, accumulating
left to right, as Python `int()` accepts after the first digit. -/
def digitsUndAux (acc : Nat) : Str → Option Nat
  | [] => some acc
  | c :: rest =>
    if c = '_' then
      match rest with
      | [] => none
      | d :: rest' =>
        if d.isDigit then digitsUndAux (acc * 10 + digitVal d) rest' else none
    else if c.isDigit then digitsUndAux (acc * 10 + digitVal c) rest else none

/-- Nonempty decimal digit run (Python `int()` digit grammar). -/
def pyDigits : Str → Option Nat
  | [] => none
  | c :: rest => if c.isDigit then digitsUndAux (digitVal c) rest else none

/-- Model of Python `int(s)` on a string: strip whitespace, optional sign,
then a nonempty digit run with underscores only between digits; `none`
models the `ValueError` the source catches. -/
def pyInt (s : Str) : Option Int :=
  match pyStrip s with
  | [] => none
  | c :: rest =>
    if c = '+' then (pyDigits rest).map Int.ofNat
    else if c = '-' then (pyDigits rest).map (fun n => -(Int.ofNat n))
    else (pyDigits (c :: rest)).map Int.ofNat

/-- Decimal digits of `n`, most significant first, with explicit fuel so
that the recursion is structural; `natToChars` supplies enough fuel. -/
def natToCharsAux : Nat → Nat → Str
  | 0, n => [Char.ofNat (48 + n % 10)]
  | fuel + 1, n =>
    if n < 10 then [Char.ofNat (48 + n)]
    else natToCharsAux fuel (n / 10) ++ [Char.ofNat (48 + n % 10)]

/-- Decimal rendering of a natural number, most significant digit first
(Python `str` on a non-negative `int`, as used by the f-string in
`make_payload`). -/
def natToChars (n : Nat) : Str := natToCharsAux n n

/-- Decimal rendering of a Python integer (`str(i)`), with a leading
minus sign when negative. -/
def intToChars (i : Int) : Str :=
  if i < 0 then '-' :: natToChars i.natAbs else natToChars i.natAbs

/-- Model of Python string comparison `a <= b`: lexicographic on code
points, with a shorter string that is a proper initial run comparing
smaller. -/
def pyStrLe : Str → Str → Bool
  | [], _ => true
  | _ :: _, [] => false
  | a :: as, b :: bs =>
    if a = b then pyStrLe as bs else decide (a < b)

end SheetsApp

namespace SheetsApp

/-- A row of the `tokens` worksheet, as the handlers read it
(`id, user, type, start, end, allowance, used, status, issued_ts, payload`).
`allowance`/`used` are kept as integers (the handlers wrap them in
`int(...)` wherever they are used). -/
structure Token where
  id : Str
  user : Str
  type : Str
  start : Str
  stop : Str
  allowance : Int
  used : Int
  status : Str
  issued_ts : Str
  payload : Str
deriving DecidableEq, Repr

/-- A row of the `uses` worksheet (`ts, token_id, user_scanned, note`). -/
structure UseRow where
  ts : Str
  token_id : Str
  user_scanned : Str
  note : Str
deriving DecidableEq, Repr

/-- Function `make_payload` from `app.py`: the canonical encoded text
`MTK|id=..|user=..|type=..|allow=..|start=..|end=..` built from the six
identity fields (`used`, `status`, `issued_ts` are not consulted). -/
def make_payload (t : Token) : Str :=
  str "MTK|id=" ++ t.id
    ++ str "|user=" ++ t.user
    ++ str "|type=" ++ t.type
    ++ str "|allow=" ++ intToChars t.allowance
    ++ str "|start=" ++ t.start
    ++ str "|end=" ++ t.stop

/-- The fields `parse_payload` returns on success. -/
structure Parsed where
  id : Str
  user : Str
  type : Str
  allowance : Int
  start : Str
  stop : Str
  payload : Str
deriving DecidableEq, Repr

/-- The `kv` dictionary built by `parse_payload`'s loop: each segment
containing `=` contributes the pair around its first `=`, in segment
order.  Assignment into a Python dict means a later pair for the same key
overwrites an earlier one, which lookup models by taking the last pair. -/
def kvPairs (parts : List Str) : List (Str × Str) :=
  parts.foldl
    (fun acc p =>
      match splitFirst '=' p with
      | some q => acc ++ [q]
      | none => acc)
    []

/-- Lookup in the `kv` dictionary: the value of the last pair whose key
matches (Python dict assignment semantics). -/
def dictGet (kvs : List (Str × Str)) (k : Str) : Option Str :=
  (kvs.reverse.find? (fun q => decide (q.1 = k))).map (fun q => q.2)

/-- The six required keys of `parse_payload`, in the order checked. -/
def requiredKeys : List Str :=
  [str "id", str "user", str "type", str "allow", str "start", str "end"]

/-- The segments after the magic marker: `payload.split("|")[1:]`. -/
def segsOf (payload : Str) : List Str :=
  (splitOnChar '|' payload).drop 1

/-- Function `parse_payload` from `app.py`: `None` (here `none`) when the text is
empty or lacks the `MTK|` marker, when a required key is absent from the
`kv` dictionary, or when the `allow` value is not an integer. -/
def parse_payload (payload : Str) : Option Parsed :=
  if hasMagic payload = false then none
  else
    let kv := kvPairs (segsOf payload)
    if (requiredKeys.all (fun k => (dictGet kv k).isSome)) = false then none
    else
      match dictGet kv (str "id"), dictGet kv (str "user"),
            dictGet kv (str "type"), dictGet kv (str "allow"),
            dictGet kv (str "start"), dictGet kv (str "end") with
      | some i, some u, some ty, some al, some s, some e =>
        match pyInt al with
        | some a => some ⟨i, u, ty, a, s, e, payload⟩
        | none => none
      | _, _, _, _, _, _ => none

/-- Function `within_validity` from `app.py`: `(today_iso >= start_iso) and
(today_iso <= end_iso)` under Python string comparison.  The `except`
branch is unreachable for string arguments, so the model is the bare
comparison. -/
def within_validity (today_iso start_iso end_iso : Str) : Bool :=
  pyStrLe start_iso today_iso && pyStrLe today_iso end_iso

/-- The status literal `"ACTIVE"`. -/
def ACTIVE : Str := str "ACTIVE"

/-- The status literal `"EXHAUSTED"`. -/
def EXHAUSTED : Str := str "EXHAUSTED"

/-- One `update_cell(row, 7, new_used)` call: overwrite the `used` cell of
the first row whose id cell matches (`findall(...)[0]`). -/
def write_used_cell (rows : List Token) (token_id : Str) (new_used : Int) : List Token :=
  match rows with
  | [] => []
  | t :: ts =>
    if t.id = token_id then { t with used := new_used } :: ts
    else t :: write_used_cell ts token_id new_used

/-- One `update_cell(row, 8, new_status)` call: overwrite the `status` cell
of the first row whose id cell matches. -/
def write_status_cell (rows : List Token) (token_id : Str) (new_status : Str) : List Token :=
  match rows with
  | [] => []
  | t :: ts =>
    if t.id = token_id then { t with status := new_status } :: ts
    else t :: write_status_cell ts token_id new_status

/-- A gspread transport exception inside `update_token_used`, which makes two
separate `update_cell` API calls: the fault either strikes before the `used`
cell is written (during `findall` or the first `update_cell`, leaving both
cells untouched) or before the `status` cell is written (during the second
`update_cell`, after the `used` cell was already overwritten).  The carried
string is the exception text `e`. -/
inductive UpdateFault where
  | beforeUsed (e : Str)
  | beforeStatus (e : Str)
deriving DecidableEq, Repr

/-- Function `update_token_used` from `app.py`, on the modelled `tokens`
worksheet: `findall(token_id, in_column=1)` locates the rows whose id cell
matches and raises `ValueError("Token not found")` when there are none;
otherwise the first match's `used` cell and then (when `new_status` is
truthy) its `status` cell are overwritten by two separate `update_cell`
calls.  The result is the possibly-raised exception text paired with the
worksheet as the call leaves it: a `beforeStatus` fault leaves the `used`
cell already advanced with the old status. -/
def update_token_used (rows : List Token) (token_id : Str) (new_used : Int)
    (new_status : Str) (fault : Option UpdateFault) : Option Str × List Token :=
  match fault with
  | some (.beforeUsed e) => (some e, rows)
  | _ =>
    if (rows.find? (fun t => decide (t.id = token_id))).isNone then
      (some (str "Token not found"), rows)
    else
      let rows1 := write_used_cell rows token_id new_used
      match fault with
      | some (.beforeStatus e) => (some e, rows1)
      | _ =>
        if new_status = [] then (none, rows1)
        else (none, write_status_cell rows1 token_id new_status)

/-- The two modelled worksheets: `tokens` and `uses` rows, in sheet order. -/
structure Sheets where
  tokens : List Token
  uses : List UseRow
deriving DecidableEq, Repr

/-- Outcome of one press of "Validate & Use" (tab2): each `st.error` /
`st.success` message is one constructor.  `updateFailed` is the single
`except` branch `st.error(f"Failed to update token: {e}")`, reached for any
exception raised by either write of the `try` block. -/
inductive Outcome where
  | badPassword
  | invalidPayload
  | tokenNotFound
  | tokenNotActive
  | outOfWindow
  | noRemainingUses
  | updateFailed (msg : Str)
  | useRecorded
deriving DecidableEq, Repr

/-- The tab2 "Validate & Use" handler from `app.py`.  `updateFault` injects a
gspread transport exception inside the `update_token_used` call (either
before the `used` cell is written or between the two `update_cell` calls);
`appendFault` injects one raised by `append_use_row`; `none` means the call
goes through.  The single `except` branch reports the same generic message
for every exception of the `try` block, and the worksheet keeps whatever
cell writes had already happened: an `updateFault.beforeStatus` leaves the
counter advanced with the old status, an `appendFault` leaves the fully
updated counter with the log entry missing. -/
def redeem (st : Sheets) (scan_text admin2 admin_pass today_iso now_ts : Str)
    (updateFault : Option UpdateFault) (appendFault : Option Str) : Outcome × Sheets :=
  if admin2 ≠ admin_pass then (.badPassword, st)
  else
    match parse_payload (pyStrip scan_text) with
    | none => (.invalidPayload, st)
    | some parsed =>
      match st.tokens.find? (fun t => decide (t.id = parsed.id)) with
      | none => (.tokenNotFound, st)
      | some token =>
        let valid := within_validity today_iso token.start token.stop
        let remaining := token.allowance - token.used
        if token.status ≠ ACTIVE then (.tokenNotActive, st)
        else if valid = false then (.outOfWindow, st)
        else if remaining ≤ 0 then (.noRemainingUses, st)
        else
          let new_used := token.used + 1
          let new_status := if new_used < token.allowance then ACTIVE else EXHAUSTED
          match update_token_used st.tokens token.id new_used new_status updateFault with
          | (some e, rows1) => (.updateFailed e, { st with tokens := rows1 })
          | (none, rows1) =>
            match appendFault with
            | some e => (.updateFailed e, { st with tokens := rows1 })
            | none =>
              (.useRecorded,
               { tokens := rows1,
                 uses := st.uses ++ [⟨now_ts, token.id, token.user, str "scan"⟩] })

/-- The token record built by the tab1 "Generate QR" handler: fresh id,
stripped user name, `used = 0`, `status = "ACTIVE"`, and the payload encoded
from the record itself. -/
def mkToken (token_id g_user g_type g_start g_end : Str) (g_allow : Int)
    (issued : Str) : Token :=
  let t : Token :=
    ⟨token_id, pyStrip g_user, g_type, g_start, g_end, g_allow, 0, ACTIVE, issued, []⟩
  { t with payload := make_payload t }

/-- The tab1 "Generate QR" handler from `app.py`: rejects (returns `none`,
covering every `st.error` branch) on an unset or wrong admin password, a
blank user name, or `g_start > g_end`; otherwise appends the new token row.
The handler compares `g_start > g_end` on `date` values; the model carries
the ISO strings, on which Python date order is the string order. -/
def generate_qr (st : Sheets) (g_user g_type g_start g_end : Str) (g_allow : Int)
    (token_id issued g_admin admin_pass : Str) : Option Sheets :=
  if admin_pass = [] then none
  else if g_admin ≠ admin_pass then none
  else if pyStrip g_user = [] then none
  else if pyStrLe g_start g_end = false then none
  else some { st with
              tokens := st.tokens ++ [mkToken token_id g_user g_type g_start g_end g_allow issued] }

/-- Sheet states reachable through the two mutating handlers, starting from
empty worksheets.  The `1 ≤ g_allow` side condition on issuance is the
`st.number_input("Total allowance (uses)", min_value=1, ...)` widget bound
(`app.py` line 267): the handler can only ever receive an allowance `≥ 1`. -/
inductive Reach : Sheets → Prop
  | init : Reach ⟨[], []⟩
  | gen {st st' : Sheets} (g_user g_type g_start g_end : Str) (g_allow : Int)
      (token_id issued g_admin admin_pass : Str)
      (hallow : 1 ≤ g_allow)
      (h : generate_qr st g_user g_type g_start g_end g_allow token_id issued
             g_admin admin_pass = some st')
      (hr : Reach st) : Reach st'
  | use {st : Sheets} (scan_text admin2 admin_pass today_iso now_ts : Str)
      (updateFault : Option UpdateFault) (appendFault : Option Str) (hr : Reach st) :
      Reach (redeem st scan_text admin2 admin_pass today_iso now_ts
               updateFault appendFault).2

/-- Sheet states reachable like `Reach`, but along executions in which no
transport fault ever struck between the two `update_cell` calls of
`update_token_used` (every redemption's `status` write goes through whenever
its `used` write did).  `beforeUsed` faults, append faults and all rejected
calls remain allowed. -/
inductive ReachClean : Sheets → Prop
  | init : ReachClean ⟨[], []⟩
  | gen {st st' : Sheets} (g_user g_type g_start g_end : Str) (g_allow : Int)
      (token_id issued g_admin admin_pass : Str)
      (hallow : 1 ≤ g_allow)
      (h : generate_qr st g_user g_type g_start g_end g_allow token_id issued
             g_admin admin_pass = some st')
      (hr : ReachClean st) : ReachClean st'
  | use {st : Sheets} (scan_text admin2 admin_pass today_iso now_ts : Str)
      (updateFault : Option UpdateFault) (appendFault : Option Str)
      (hok : ∀ e, updateFault ≠ some (UpdateFault.beforeStatus e))
      (hr : ReachClean st) :
      ReachClean (redeem st scan_text admin2 admin_pass today_iso now_ts
               updateFault appendFault).2

/-- Arguments of one "Validate & Use" press, for iterating `redeem`. -/
structure RedeemCall where
  scan_text : Str
  admin2 : Str
  admin_pass : Str
  today_iso : Str
  now_ts : Str
  updateFault : Option UpdateFault
  appendFault : Option Str

/-- Fold a sequence of "Validate & Use" presses over the sheet state. -/
def redeemMany (st : Sheets) : List RedeemCall → Sheets
  | [] => st
  | c :: cs =>
    redeemMany (redeem st c.scan_text c.admin2 c.admin_pass c.today_iso c.now_ts
                  c.updateFault c.appendFault).2 cs

/-- The six identity fields of a decoded payload (everything except the
echoed raw text). -/
def Parsed.fields (p : Parsed) : Str × Str × Str × Int × Str × Str :=
  (p.id, p.user, p.type, p.allowance, p.start, p.stop)

/-- ISO-8601 calendar-date shape `YYYY-MM-DD` (fixed width, zero padded),
the format the specification's window comparison is stated over; a string
not of this shape is a malformed date. -/
def isIsoDateShape : Str → Bool
  | [y1, y2, y3, y4, '-', m1, m2, '-', d1, d2] =>
    y1.isDigit && y2.isDigit && y3.isDigit && y4.isDigit &&
    m1.isDigit && m2.isDigit && d1.isDigit && d2.isDigit
  | _ => false

/-- Intercalation of segments with a separator character, the shape
`splitOnChar` inverts. -/
def joinSep (sep : Char) : List Str → Str
  | [] => []
  | [s] => s
  | s :: rest => s ++ sep :: joinSep sep rest

/-- The specified per-token invariant: the use counter stays inside
`[0, allowance]` and the persisted status is `EXHAUSTED` exactly when the
counter has reached the allowance. -/
def TokenInv (t : Token) : Prop :=
  0 ≤ t.used ∧ t.used ≤ t.allowance ∧ (t.status = EXHAUSTED ↔ t.used = t.allowance)

/-- The counter half of the invariant alone: `0 ≤ used ≤ allowance`. -/
def TokenBounds (t : Token) : Prop :=
  0 ≤ t.used ∧ t.used ≤ t.allowance

/-- An allowance-1 token as issued by tab1. -/
def oneUseTok : Token :=
  mkToken (str "Z1") (str "Pat") (str "Lunch") (str "2024-01-01")
    (str "2024-01-31") 1 (str "2024-01-01T09:00:00")

/-- The payload text of `oneUseTok`. -/
def oneUseScan : Str :=
  str "MTK|id=Z1|user=Pat|type=Lunch|allow=1|start=2024-01-01|end=2024-01-31"

/-- The sheet state reached by issuing `oneUseTok` and then redeeming it once
with the transport failing between the two `update_cell` calls: the `used`
cell was advanced to the allowance but the `status` cell kept `ACTIVE`. -/
def partialWriteSheets : Sheets := ⟨[{ oneUseTok with used := 1 }], []⟩

/-- The condition "the `allow` value of the payload's `kv` dictionary is
present but not parseable as an integer". -/
def allowNotInt (p : Str) : Bool :=
  match dictGet (kvPairs (segsOf p)) (str "allow") with
  | some al => (pyInt al).isNone
  | none => false

/-- A sample freshly issued token (allowance 2), used to evaluate the
handlers at concrete inputs. -/
def sampleTok : Token :=
  mkToken (str "AB12") (str "Asha") (str "Lunch") (str "2024-01-01")
    (str "2024-01-31") 2 (str "2024-01-01T09:00:00")

/-- The payload text of `sampleTok`, as a scanner would deliver it. -/
def sampleScan : Str :=
  str "MTK|id=AB12|user=Asha|type=Lunch|allow=2|start=2024-01-01|end=2024-01-31"

/-- A store holding only `sampleTok`, with an empty redemption log. -/
def sampleSheets : Sheets := ⟨[sampleTok], []⟩

/-- A fully redeemed (EXHAUSTED) token: `used = allowance = 2`. -/
def exhaustedTok : Token :=
  ⟨str "E1", str "Bo", str "Lunch", str "2024-01-01", str "2024-01-31",
   2, 2, EXHAUSTED, str "2024-01-01T09:00:00",
   str "MTK|id=E1|user=Bo|type=Lunch|allow=2|start=2024-01-01|end=2024-01-31"⟩

/-- The payload text of `exhaustedTok`. -/
def exhaustedScan : Str :=
  str "MTK|id=E1|user=Bo|type=Lunch|allow=2|start=2024-01-01|end=2024-01-31"

/-- A store holding only `exhaustedTok`, with an empty redemption log. -/
def exhaustedSheets : Sheets := ⟨[exhaustedTok], []⟩

/-- A token whose `user` field contains the payload separator `|`. -/
def pipeUserTok : Token :=
  mkToken (str "CX01") (str "x|y") (str "Lunch") (str "2024-01-01")
    (str "2024-01-31") 2 (str "2024-01-01T09:00:00")

end SheetsApp

namespace SheetsApp

theorem splitOnChar_ne_nil (sep : Char) (l : Str) : splitOnChar sep l ≠ [] := by
  cases l with
  | nil => simp [splitOnChar]
  | cons c cs =>
    cases h : splitOnChar sep cs with
    | nil => simp [splitOnChar, h]
    | cons w ws =>
      simp only [splitOnChar, h]
      split <;> simp

theorem splitOnChar_of_not_mem {sep : Char} {xs : Str} (h : sep ∉ xs) :
    splitOnChar sep xs = [xs] := by
  induction xs with
  | nil => rfl
  | cons c cs ih =>
    have hc : ¬(c = sep) := fun he => h (he ▸ List.mem_cons_self c cs)
    have h' : sep ∉ cs := fun hm => h (List.mem_cons_of_mem _ hm)
    simp [splitOnChar, ih h', hc]

theorem splitOnChar_append {sep : Char} {xs ys : Str} (h : sep ∉ xs) :
    splitOnChar sep (xs ++ sep :: ys) = xs :: splitOnChar sep ys := by
  induction xs with
  | nil =>
    obtain ⟨w, ws, hw⟩ : ∃ w ws, splitOnChar sep ys = w :: ws := by
      cases hys : splitOnChar sep ys with
      | nil => exact absurd hys (splitOnChar_ne_nil sep ys)
      | cons w ws => exact ⟨w, ws, rfl⟩
    simp [splitOnChar, hw]
  | cons c cs ih =>
    have hc : ¬(c = sep) := fun he => h (he ▸ List.mem_cons_self c cs)
    have h' : sep ∉ cs := fun hm => h (List.mem_cons_of_mem _ hm)
    simp [splitOnChar, ih h', hc]

theorem splitOnChar_joinSep {sep : Char} {segs : List Str} (hne : segs ≠ [])
    (h : ∀ s ∈ segs, sep ∉ s) :
    splitOnChar sep (joinSep sep segs) = segs := by
  induction segs with
  | nil => exact absurd rfl hne
  | cons s rest ih =>
    cases rest with
    | nil => exact splitOnChar_of_not_mem (h s (List.mem_cons_self s []))
    | cons s' rest' =>
      have h1 : sep ∉ s := h s (List.mem_cons_self _ _)
      have h2 : ∀ u ∈ s' :: rest', sep ∉ u := fun u hu => h u (List.mem_cons_of_mem _ hu)
      calc splitOnChar sep (s ++ sep :: joinSep sep (s' :: rest'))
          = s :: splitOnChar sep (joinSep sep (s' :: rest')) := splitOnChar_append h1
        _ = s :: s' :: rest' := by rw [ih (by simp) h2]

theorem joinSep_snoc (sep : Char) {segs : List Str} (hne : segs ≠ []) (s : Str) :
    joinSep sep (segs ++ [s]) = joinSep sep segs ++ sep :: s := by
  induction segs with
  | nil => exact absurd rfl hne
  | cons a rest ih =>
    cases rest with
    | nil => rfl
    | cons b rest' =>
      have hih := ih (by simp)
      calc joinSep sep (a :: b :: rest' ++ [s])
          = a ++ sep :: joinSep sep ((b :: rest') ++ [s]) := rfl
        _ = a ++ sep :: (joinSep sep (b :: rest') ++ sep :: s) := by rw [hih]
        _ = (a ++ sep :: joinSep sep (b :: rest')) ++ sep :: s := by simp

theorem splitFirst_of_not_mem {sep : Char} {xs : Str} (h : sep ∉ xs) :
    splitFirst sep xs = none := by
  induction xs with
  | nil => rfl
  | cons c cs ih =>
    have hc : ¬(c = sep) := fun he => h (he ▸ List.mem_cons_self c cs)
    have h' : sep ∉ cs := fun hm => h (List.mem_cons_of_mem _ hm)
    simp [splitFirst, ih h', hc]

theorem splitFirst_append {sep : Char} {xs ys : Str} (h : sep ∉ xs) :
    splitFirst sep (xs ++ sep :: ys) = some (xs, ys) := by
  induction xs with
  | nil => simp [splitFirst]
  | cons c cs ih =>
    have hc : ¬(c = sep) := fun he => h (he ▸ List.mem_cons_self c cs)
    have h' : sep ∉ cs := fun hm => h (List.mem_cons_of_mem _ hm)
    simp [splitFirst, ih h', hc]

theorem kvPairs_eq_filterMap (parts : List Str) :
    kvPairs parts = parts.filterMap (splitFirst '=') := by
  suffices h : ∀ acc : List (Str × Str),
      parts.foldl
        (fun acc p =>
          match splitFirst '=' p with
          | some q => acc ++ [q]
          | none => acc) acc
        = acc ++ parts.filterMap (splitFirst '=') by
    simpa [kvPairs] using h []
  induction parts with
  | nil => intro acc; simp
  | cons p ps ih =>
    intro acc
    cases hq : splitFirst '=' p <;>
      simp [List.filterMap_cons, hq, ih, List.append_assoc]

theorem dictGet_append (a b : List (Str × Str)) (k : Str) :
    dictGet (a ++ b) k = (dictGet b k).or (dictGet a k) := by
  unfold dictGet
  rw [List.reverse_append, List.find?_append]
  cases List.find? (fun q => decide (q.1 = k)) b.reverse <;> simp

theorem dictGet_nil (k : Str) : dictGet [] k = none := rfl

theorem dictGet_singleton (q : Str × Str) (k : Str) :
    dictGet [q] k = if q.1 = k then some q.2 else none := by
  unfold dictGet
  by_cases h : q.1 = k <;> simp [List.find?, h]

theorem dictGet_cons (q : Str × Str) (kvs : List (Str × Str)) (k : Str) :
    dictGet (q :: kvs) k = (dictGet kvs k).or (if q.1 = k then some q.2 else none) := by
  have : q :: kvs = [q] ++ kvs := rfl
  rw [this, dictGet_append, dictGet_singleton]

theorem dictGet_snoc (kvs : List (Str × Str)) (q : Str × Str) (k : Str) :
    dictGet (kvs ++ [q]) k = if q.1 = k then some q.2 else dictGet kvs k := by
  rw [dictGet_append, dictGet_singleton]
  by_cases h : q.1 = k <;> simp [h]

theorem dictGet_perm {kv₁ kv₂ : List (Str × Str)} (hp : kv₁.Perm kv₂) :
    (kv₁.map Prod.fst).Nodup → ∀ k, dictGet kv₁ k = dictGet kv₂ k := by
  induction hp with
  | nil => intro _ k; rfl
  | cons x h ih =>
    intro hn k
    rw [List.map_cons] at hn
    rw [dictGet_cons, dictGet_cons, ih hn.of_cons k]
  | swap x y l =>
    intro hn k
    rw [List.map_cons, List.map_cons] at hn
    have h1 := List.nodup_cons.mp hn
    have hxy : y.1 ≠ x.1 := fun he => h1.1 (by rw [he]; exact List.mem_cons_self _ _)
    rw [dictGet_cons, dictGet_cons, dictGet_cons, dictGet_cons]
    by_cases hx : x.1 = k <;> by_cases hy : y.1 = k
    · exact absurd (hy.trans hx.symm) hxy
    · simp [hx, hy]
    · simp [hx, hy]
    · simp [hx, hy]
  | trans h₁ h₂ ih₁ ih₂ =>
    intro hn k
    have hn₂ := ((h₁.map Prod.fst).nodup_iff).mp hn
    rw [ih₁ hn k, ih₂ hn₂ k]

theorem digitChar_isDigit {r : Nat} (h : r < 10) : (Char.ofNat (48 + r)).isDigit = true := by
  interval_cases r <;> decide

theorem digitChar_val {r : Nat} (h : r < 10) : digitVal (Char.ofNat (48 + r)) = r := by
  interval_cases r <;> decide

theorem digitChar_ne {r : Nat} (h : r < 10) :
    Char.ofNat (48 + r) ≠ '_' ∧ Char.ofNat (48 + r) ≠ '+' ∧ Char.ofNat (48 + r) ≠ '-' ∧
    Char.ofNat (48 + r) ≠ '|' ∧ Char.ofNat (48 + r) ≠ '=' ∧
    isPyWs (Char.ofNat (48 + r)) = false := by
  interval_cases r <;> decide

theorem natToCharsAux_ne_nil (fuel n : Nat) : natToCharsAux fuel n ≠ [] := by
  cases fuel with
  | zero => simp [natToCharsAux]
  | succ f => simp only [natToCharsAux]; split <;> simp

theorem natToCharsAux_mem :
    ∀ fuel n c, c ∈ natToCharsAux fuel n → ∃ r, r < 10 ∧ c = Char.ofNat (48 + r) := by
  intro fuel
  induction fuel with
  | zero =>
    intro n c hc
    simp only [natToCharsAux, List.mem_singleton] at hc
    exact ⟨n % 10, Nat.mod_lt n (by omega), hc⟩
  | succ f ih =>
    intro n c hc
    by_cases h10 : n < 10
    · simp only [natToCharsAux, if_pos h10, List.mem_singleton] at hc
      exact ⟨n, h10, hc⟩
    · simp only [natToCharsAux, if_neg h10, List.mem_append, List.mem_singleton] at hc
      cases hc with
      | inl h => exact ih _ _ h
      | inr h => exact ⟨n % 10, Nat.mod_lt n (by omega), h⟩

theorem natToCharsAux_val :
    ∀ fuel n, n < 10 ^ (fuel + 1) →
      (natToCharsAux fuel n).foldl (fun a c => a * 10 + digitVal c) 0 = n := by
  intro fuel
  induction fuel with
  | zero =>
    intro n hn
    have hn10 : n < 10 := by simpa using hn
    have hd := digitChar_val (Nat.mod_lt n (by omega) : n % 10 < 10)
    simp only [natToCharsAux, List.foldl, hd]
    omega
  | succ f ih =>
    intro n hn
    by_cases h10 : n < 10
    · have hd := digitChar_val h10
      simp only [natToCharsAux, if_pos h10, List.foldl, hd]
      omega
    · have hlt : n / 10 < 10 ^ (f + 1) := by
        rw [pow_succ] at hn
        omega
      have hd := digitChar_val (Nat.mod_lt n (by omega) : n % 10 < 10)
      rw [natToCharsAux, if_neg h10, List.foldl_append, ih _ hlt]
      simp only [List.foldl, hd]
      omega

theorem natToChars_ne_nil (n : Nat) : natToChars n ≠ [] := natToCharsAux_ne_nil n n

theorem natToChars_mem {n : Nat} {c : Char} (hc : c ∈ natToChars n) :
    ∃ r, r < 10 ∧ c = Char.ofNat (48 + r) := natToCharsAux_mem n n c hc

theorem natToChars_val (n : Nat) :
    (natToChars n).foldl (fun a c => a * 10 + digitVal c) 0 = n := by
  have h1 : (1 : Nat) < 10 := by omega
  have h2 : n < 10 ^ n := Nat.lt_pow_self h1 n
  exact natToCharsAux_val n n (lt_of_lt_of_le h2 (Nat.pow_le_pow_right (by omega) (by omega)))

theorem digitsUndAux_cons (acc : Nat) (c : Char) (rest : Str) :
    digitsUndAux acc (c :: rest) =
      if c = '_' then
        (match rest with
         | [] => none
         | d :: rest' =>
           if d.isDigit then digitsUndAux (acc * 10 + digitVal d) rest' else none)
      else if c.isDigit then digitsUndAux (acc * 10 + digitVal c) rest else none := by
  rw [digitsUndAux.eq_def]
  rfl

theorem digitsUndAux_of_digits :
    ∀ l : Str, (∀ c ∈ l, ∃ r, r < 10 ∧ c = Char.ofNat (48 + r)) →
      ∀ acc, digitsUndAux acc l = some (l.foldl (fun a c => a * 10 + digitVal c) acc) := by
  intro l
  induction l with
  | nil => intro _ acc; rfl
  | cons c cs ih =>
    intro h acc
    obtain ⟨r, hr, rfl⟩ := h c (List.mem_cons_self _ _)
    rw [digitsUndAux_cons]
    rw [if_neg (digitChar_ne hr).1, if_pos (digitChar_isDigit hr)]
    rw [ih (fun x hx => h x (List.mem_cons_of_mem _ hx))]
    rfl

theorem pyDigits_of_digits {l : Str} (hne : l ≠ [])
    (h : ∀ c ∈ l, ∃ r, r < 10 ∧ c = Char.ofNat (48 + r)) :
    pyDigits l = some (l.foldl (fun a c => a * 10 + digitVal c) 0) := by
  cases l with
  | nil => exact absurd rfl hne
  | cons c cs =>
    obtain ⟨r, hr, hc⟩ := h c (List.mem_cons_self _ _)
    rw [pyDigits, if_pos (hc ▸ digitChar_isDigit hr)]
    rw [digitsUndAux_of_digits cs (fun x hx => h x (List.mem_cons_of_mem _ hx))]
    congr 1
    simp only [List.foldl]
    congr 1
    omega

theorem dropWhile_eq_self_of {p : Char → Bool} {l : Str} (h : ∀ c ∈ l, p c = false) :
    l.dropWhile p = l := by
  cases l with
  | nil => rfl
  | cons c cs => rw [List.dropWhile_cons, h c (List.mem_cons_self _ _)]; simp

theorem pyStrip_eq_self {l : Str} (h : ∀ c ∈ l, isPyWs c = false) : pyStrip l = l := by
  unfold pyStrip
  rw [dropWhile_eq_self_of h,
      dropWhile_eq_self_of (fun c hc => h c (List.mem_reverse.mp hc)),
      List.reverse_reverse]

theorem pyInt_natToChars (n : Nat) : pyInt (natToChars n) = some (Int.ofNat n) := by
  have hmem : ∀ x ∈ natToChars n, ∃ r, r < 10 ∧ x = Char.ofNat (48 + r) :=
    fun x hx => natToChars_mem hx
  have hstrip : pyStrip (natToChars n) = natToChars n :=
    pyStrip_eq_self (fun x hx => by
      obtain ⟨r, hr, rfl⟩ := hmem x hx
      exact (digitChar_ne hr).2.2.2.2.2)
  obtain ⟨c, cs, hc⟩ : ∃ c cs, natToChars n = c :: cs := by
    cases hl : natToChars n with
    | nil => exact absurd hl (natToChars_ne_nil n)
    | cons c cs => exact ⟨c, cs, rfl⟩
  obtain ⟨r, hr, hcr⟩ := hmem c (hc ▸ List.mem_cons_self c cs)
  have hform : pyInt (natToChars n)
      = (if c = '+' then (pyDigits cs).map Int.ofNat
         else if c = '-' then (pyDigits cs).map (fun m => -(Int.ofNat m))
         else (pyDigits (c :: cs)).map Int.ofNat) := by
    rw [pyInt, hstrip, hc]
  rw [hform, hcr, if_neg (digitChar_ne hr).2.1, if_neg (digitChar_ne hr).2.2.1, ← hcr, ← hc]
  rw [pyDigits_of_digits (natToChars_ne_nil n) hmem, natToChars_val]
  rfl

theorem pyInt_intToChars (i : Int) : pyInt (intToChars i) = some i := by
  unfold intToChars
  by_cases h : i < 0
  · rw [if_pos h]
    have hmem : ∀ x ∈ natToChars i.natAbs, ∃ r, r < 10 ∧ x = Char.ofNat (48 + r) :=
      fun x hx => natToChars_mem hx
    have hstrip : pyStrip ('-' :: natToChars i.natAbs) = '-' :: natToChars i.natAbs :=
      pyStrip_eq_self (fun x hx => by
        rcases List.mem_cons.mp hx with hx | hx
        · rw [hx]; decide
        · obtain ⟨r, hr, rfl⟩ := hmem x hx
          exact (digitChar_ne hr).2.2.2.2.2)
    have hform : pyInt ('-' :: natToChars i.natAbs)
        = (pyDigits (natToChars i.natAbs)).map (fun m => -(Int.ofNat m)) := by
      rw [pyInt, hstrip]
      simp
    rw [hform, pyDigits_of_digits (natToChars_ne_nil _) hmem, natToChars_val]
    simp only [Option.map_some']
    congr 1
    rw [Int.ofNat_eq_natCast]
    omega
  · rw [if_neg h, pyInt_natToChars]
    congr 1
    rw [Int.ofNat_eq_natCast]
    omega

theorem pyStrLe_iff_not_lex : ∀ a b : Str, pyStrLe a b = true ↔ ¬ List.Lex (· < ·) b a
  | [], b => by
    simp only [pyStrLe]
    exact iff_of_true trivial (List.Lex.not_nil_right _ _)
  | a :: as, [] => by
    simp only [pyStrLe]
    exact iff_of_false (by simp) (not_not_intro List.Lex.nil)
  | a :: as, b :: bs => by
    simp only [pyStrLe]
    by_cases hab : a = b
    · subst hab
      rw [if_pos rfl, pyStrLe_iff_not_lex as bs]
      exact (not_congr List.Lex.cons_iff).symm
    · rw [if_neg hab, decide_eq_true_iff]
      constructor
      · intro h hlex
        cases hlex with
        | cons h' => exact hab rfl
        | rel h' => exact absurd h (asymm h')
      · intro h
        rcases lt_trichotomy a b with hlt | heq | hgt
        · exact hlt
        · exact absurd heq hab
        · exact absurd (List.Lex.rel hgt) h

theorem pyStrLe_iff_le (a b : Str) : pyStrLe a b = true ↔ a ≤ b := by
  rw [pyStrLe_iff_not_lex]
  constructor
  · intro h
    exact not_lt.mp h
  · intro h
    exact not_lt.mpr h

theorem find?_congr {α : Type} {p q : α → Bool} (h : ∀ x, p x = q x) :
    ∀ l : List α, l.find? p = l.find? q := by
  intro l
  induction l with
  | nil => rfl
  | cons a l ih => simp only [List.find?_cons, h a, ih]

theorem find?_decomp {rows : List Token} {tid : Str} {t₀ : Token}
    (hf : rows.find? (fun t => decide (t.id = tid)) = some t₀) :
    ∃ pre post, rows = pre ++ t₀ :: post ∧ (∀ u ∈ pre, u.id ≠ tid) := by
  induction rows with
  | nil => simp at hf
  | cons t ts ih =>
    by_cases h : t.id = tid
    · have ht : t = t₀ := by
        rw [List.find?_cons_of_pos _ (by simpa using h)] at hf
        exact Option.some.inj hf
      subst ht
      exact ⟨[], ts, rfl, by simp⟩
    · have hf' : ts.find? (fun t => decide (t.id = tid)) = some t₀ := by
        rwa [List.find?_cons_of_neg _ (by simpa using h)] at hf
      obtain ⟨pre, post, hrows, hpre⟩ := ih hf'
      refine ⟨t :: pre, post, by simp [hrows], ?_⟩
      intro u hu
      rcases List.mem_cons.mp hu with rfl | hu
      · exact h
      · exact hpre u hu

theorem write_used_cell_append {pre : List Token} {t : Token} {tid : Str}
    (post : List Token) (hpre : ∀ u ∈ pre, u.id ≠ tid) (ht : t.id = tid) (nu : Int) :
    write_used_cell (pre ++ t :: post) tid nu = pre ++ ({ t with used := nu }) :: post := by
  induction pre with
  | nil => simp [write_used_cell, ht]
  | cons a pre ih =>
    have ha : ¬(a.id = tid) := hpre a (List.mem_cons_self _ _)
    simp only [List.cons_append, write_used_cell, if_neg ha, List.append_eq]
    rw [ih (fun u hu => hpre u (List.mem_cons_of_mem _ hu))]

theorem write_status_cell_append {pre : List Token} {t : Token} {tid : Str}
    (post : List Token) (hpre : ∀ u ∈ pre, u.id ≠ tid) (ht : t.id = tid) (ns : Str) :
    write_status_cell (pre ++ t :: post) tid ns = pre ++ ({ t with status := ns }) :: post := by
  induction pre with
  | nil => simp [write_status_cell, ht]
  | cons a pre ih =>
    have ha : ¬(a.id = tid) := hpre a (List.mem_cons_self _ _)
    simp only [List.cons_append, write_status_cell, if_neg ha, List.append_eq]
    rw [ih (fun u hu => hpre u (List.mem_cons_of_mem _ hu))]

theorem get?_append_cons_ne {α : Type} (pre post : List α) (x y : α) (i : Nat)
    (h : ¬(i = pre.length)) :
    (pre ++ x :: post).get? i = (pre ++ y :: post).get? i := by
  rcases Nat.lt_or_ge i pre.length with hlt | hge
  · rw [List.get?_append hlt, List.get?_append hlt]
  · have hgt : pre.length < i := by omega
    rw [List.get?_append_right (by omega), List.get?_append_right (by omega)]
    have hk : i - pre.length = (i - pre.length - 1) + 1 := by omega
    rw [hk]
    simp

theorem get?_append_cons_self {α : Type} (pre post : List α) (x : α) :
    (pre ++ x :: post).get? pre.length = some x := by
  rw [List.get?_append_right (le_refl _)]
  simp

theorem update_token_used_cases (rows : List Token) (tid : Str) (nu : Int) (ns : Str)
    (uf : Option UpdateFault) :
    (∃ e, update_token_used rows tid nu ns uf = (some e, rows)) ∨
    (∃ t₀ pre post,
       rows.find? (fun t => decide (t.id = tid)) = some t₀ ∧
       rows = pre ++ t₀ :: post ∧ (∀ u ∈ pre, u.id ≠ tid) ∧
       ((∃ e, uf = some (UpdateFault.beforeStatus e) ∧
          update_token_used rows tid nu ns uf =
            (some e, pre ++ ({ t₀ with used := nu }) :: post)) ∨
        (uf = none ∧
          update_token_used rows tid nu ns uf =
            (none, pre ++ ({ t₀ with used := nu, status := if ns = [] then t₀.status else ns }) :: post)))) := by
  cases uf with
  | some f =>
    cases f with
    | beforeUsed e => exact Or.inl ⟨e, rfl⟩
    | beforeStatus e =>
      cases hfind : rows.find? (fun t => decide (t.id = tid)) with
      | none =>
        refine Or.inl ⟨str "Token not found", ?_⟩
        unfold update_token_used
        rw [hfind]
        rfl
      | some t₀ =>
        obtain ⟨pre, post, hrows, hpre⟩ := find?_decomp hfind
        have hid : t₀.id = tid := by simpa using List.find?_some hfind
        refine Or.inr ⟨t₀, pre, post, rfl, hrows, hpre, Or.inl ⟨e, rfl, ?_⟩⟩
        unfold update_token_used
        rw [hfind]
        simp only [Option.isNone_some, Bool.false_eq_true, if_false]
        rw [hrows, write_used_cell_append post hpre hid nu]
  | none =>
    cases hfind : rows.find? (fun t => decide (t.id = tid)) with
    | none =>
      refine Or.inl ⟨str "Token not found", ?_⟩
      unfold update_token_used
      rw [hfind]
      rfl
    | some t₀ =>
      obtain ⟨pre, post, hrows, hpre⟩ := find?_decomp hfind
      have hid : t₀.id = tid := by simpa using List.find?_some hfind
      refine Or.inr ⟨t₀, pre, post, rfl, hrows, hpre, Or.inr ⟨rfl, ?_⟩⟩
      unfold update_token_used
      rw [hfind]
      simp only [Option.isNone_some, Bool.false_eq_true, if_false]
      rw [hrows, write_used_cell_append post hpre hid nu]
      by_cases hns : ns = []
      · rw [if_pos hns, if_pos hns]
      · rw [if_neg hns, if_neg hns,
            write_status_cell_append post hpre (show ({ t₀ with used := nu }).id = tid from hid) ns]

theorem update_token_used_eq_none {rows : List Token} {tid : Str} {nu : Int} {ns : Str}
    {uf : Option UpdateFault} {rows' : List Token}
    (h : update_token_used rows tid nu ns uf = (none, rows')) :
    ∃ t₀ pre post,
      rows.find? (fun t => decide (t.id = tid)) = some t₀ ∧
      rows = pre ++ t₀ :: post ∧ (∀ u ∈ pre, u.id ≠ tid) ∧
      rows' = pre ++ ({ t₀ with used := nu, status := if ns = [] then t₀.status else ns }) :: post := by
  rcases update_token_used_cases rows tid nu ns uf with ⟨e, he⟩ |
    ⟨t₀, pre, post, hf, hrows, hpre, ⟨e, _, he⟩ | ⟨_, he⟩⟩
  · rw [he] at h
    injection h with h1 h2
    exact absurd h1 (by simp)
  · rw [he] at h
    injection h with h1 h2
    exact absurd h1 (by simp)
  · rw [he] at h
    injection h with h1 h2
    exact ⟨t₀, pre, post, hf, hrows, hpre, h2.symm⟩

theorem update_token_used_raised {rows : List Token} {tid : Str} {nu : Int} {ns : Str}
    {uf : Option UpdateFault} {e : Str} {rows' : List Token}
    (h : update_token_used rows tid nu ns uf = (some e, rows'))
    (hok : ∀ e', uf ≠ some (UpdateFault.beforeStatus e')) : rows' = rows := by
  rcases update_token_used_cases rows tid nu ns uf with ⟨e', he⟩ |
    ⟨t₀, pre, post, hf, hrows, hpre, ⟨e', hufeq, he⟩ | ⟨_, he⟩⟩
  · rw [he] at h
    injection h with h1 h2
    exact h2.symm
  · exact absurd hufeq (hok e')
  · rw [he] at h
    injection h with h1 h2
    exact absurd h1 (by simp)

theorem update_token_used_mem {rows : List Token} {tid : Str} {nu : Int} {ns : Str}
    {uf : Option UpdateFault} {r : Option Str} {rows' : List Token}
    (h : update_token_used rows tid nu ns uf = (r, rows')) :
    ∀ u ∈ rows', u ∈ rows ∨
      ∃ t₀, rows.find? (fun x => decide (x.id = tid)) = some t₀ ∧
        (u = { t₀ with used := nu } ∨
         u = { t₀ with used := nu, status := if ns = [] then t₀.status else ns }) := by
  rcases update_token_used_cases rows tid nu ns uf with ⟨e, he⟩ |
    ⟨t₀, pre, post, hf, hrows, hpre, ⟨e, hufeq, he⟩ | ⟨hufeq, he⟩⟩
  · rw [he] at h
    injection h with h1 h2
    rw [← h2]
    exact fun u hu => Or.inl hu
  · rw [he] at h
    injection h with h1 h2
    rw [← h2]
    intro u hu
    rcases List.mem_append.mp hu with hu | hu
    · exact Or.inl (by rw [hrows]; exact List.mem_append.mpr (Or.inl hu))
    · rcases List.mem_cons.mp hu with rfl | hu
      · exact Or.inr ⟨t₀, hf, Or.inl rfl⟩
      · exact Or.inl (by rw [hrows]; exact List.mem_append.mpr (Or.inr (List.mem_cons_of_mem _ hu)))
  · rw [he] at h
    injection h with h1 h2
    rw [← h2]
    intro u hu
    rcases List.mem_append.mp hu with hu | hu
    · exact Or.inl (by rw [hrows]; exact List.mem_append.mpr (Or.inl hu))
    · rcases List.mem_cons.mp hu with rfl | hu
      · exact Or.inr ⟨t₀, hf, Or.inr rfl⟩
      · exact Or.inl (by rw [hrows]; exact List.mem_append.mpr (Or.inr (List.mem_cons_of_mem _ hu)))

theorem update_token_used_get? {rows : List Token} {tid : Str} {nu : Int} {ns : Str}
    {uf : Option UpdateFault} {r : Option Str} {rows' : List Token}
    (h : update_token_used rows tid nu ns uf = (r, rows')) :
    ∀ i t, rows.get? i = some t →
      rows'.get? i = some t ∨ rows.find? (fun u => decide (u.id = tid)) = some t := by
  rcases update_token_used_cases rows tid nu ns uf with ⟨e, he⟩ |
    ⟨t₀, pre, post, hf, hrows, hpre, ⟨e, hufeq, he⟩ | ⟨hufeq, he⟩⟩
  · rw [he] at h
    injection h with h1 h2
    rw [← h2]
    exact fun i t ht => Or.inl ht
  all_goals {
    rw [he] at h
    injection h with h1 h2
    rw [← h2]
    intro i t ht
    by_cases hi : i = pre.length
    · subst hi
      rw [hrows, get?_append_cons_self] at ht
      right
      rw [hf, ht]
    · left
      rw [get?_append_cons_ne pre post _ t₀ i hi, ← hrows]
      exact ht
  }

theorem find?_update_token_used {rows : List Token} {tid : Str} {nu : Int} {ns : Str}
    {rows' : List Token}
    (h : update_token_used rows tid nu ns none = (none, rows')) :
    ∃ t₀, rows.find? (fun t => decide (t.id = tid)) = some t₀ ∧
      rows'.find? (fun t => decide (t.id = tid)) =
        some { t₀ with used := nu, status := if ns = [] then t₀.status else ns } := by
  obtain ⟨t₀, pre, post, hf, hrows, hpre, hrows'⟩ := update_token_used_eq_none h
  have hid : t₀.id = tid := by simpa using List.find?_some hf
  refine ⟨t₀, hf, ?_⟩
  rw [hrows', List.find?_append]
  have hnone : pre.find? (fun t => decide (t.id = tid)) = none :=
    List.find?_eq_none.mpr (fun x hx => by simpa using hpre x hx)
  rw [hnone]
  rw [List.find?_cons_of_pos _ (by simpa using hid)]
  rfl

theorem not_mem_natToChars_of {c : Char} (n : Nat)
    (hc : ∀ r, r < 10 → Char.ofNat (48 + r) ≠ c) : c ∉ natToChars n := by
  intro hmem
  obtain ⟨r, hr, heq⟩ := natToChars_mem hmem
  exact hc r hr heq.symm

theorem pipe_not_mem_intToChars (i : Int) : '|' ∉ intToChars i := by
  unfold intToChars
  have hdig : '|' ∉ natToChars i.natAbs :=
    not_mem_natToChars_of _ (fun r hr => (digitChar_ne hr).2.2.2.1)
  by_cases h : i < 0
  · rw [if_pos h]
    intro hmem
    rcases List.mem_cons.mp hmem with h' | h'
    · exact absurd h' (by decide)
    · exact hdig h'
  · rwa [if_neg h]

theorem make_payload_structured (t : Token) :
    make_payload t = joinSep '|'
      [str "MTK", str "id=" ++ t.id, str "user=" ++ t.user, str "type=" ++ t.type,
       str "allow=" ++ intToChars t.allowance, str "start=" ++ t.start,
       str "end=" ++ t.stop] := by
  show str "MTK|id=" ++ t.id ++ str "|user=" ++ t.user ++ str "|type=" ++ t.type
      ++ str "|allow=" ++ intToChars t.allowance ++ str "|start=" ++ t.start
      ++ str "|end=" ++ t.stop
    = str "MTK" ++ '|' :: ((str "id=" ++ t.id)
        ++ '|' :: ((str "user=" ++ t.user)
        ++ '|' :: ((str "type=" ++ t.type)
        ++ '|' :: ((str "allow=" ++ intToChars t.allowance)
        ++ '|' :: ((str "start=" ++ t.start)
        ++ '|' :: (str "end=" ++ t.stop))))))
  rw [show str "MTK|id=" = str "MTK" ++ '|' :: str "id=" from rfl,
      show str "|user=" = '|' :: str "user=" from rfl,
      show str "|type=" = '|' :: str "type=" from rfl,
      show str "|allow=" = '|' :: str "allow=" from rfl,
      show str "|start=" = '|' :: str "start=" from rfl,
      show str "|end=" = '|' :: str "end=" from rfl]
  simp [List.append_assoc]

theorem segsOf_make_payload (t : Token) (hid : '|' ∉ t.id) (hus : '|' ∉ t.user)
    (hty : '|' ∉ t.type) (hst : '|' ∉ t.start) (hen : '|' ∉ t.stop) :
    segsOf (make_payload t) =
      [str "id=" ++ t.id, str "user=" ++ t.user, str "type=" ++ t.type,
       str "allow=" ++ intToChars t.allowance, str "start=" ++ t.start,
       str "end=" ++ t.stop] := by
  unfold segsOf
  rw [make_payload_structured, splitOnChar_joinSep (by simp) ?notmem]
  case notmem =>
    intro s hs
    simp only [List.mem_cons, List.not_mem_nil, or_false] at hs
    rcases hs with rfl | rfl | rfl | rfl | rfl | rfl | rfl
    · decide
    · intro hmem
      rcases List.mem_append.mp hmem with h | h
      · exact absurd h (by decide)
      · exact hid h
    · intro hmem
      rcases List.mem_append.mp hmem with h | h
      · exact absurd h (by decide)
      · exact hus h
    · intro hmem
      rcases List.mem_append.mp hmem with h | h
      · exact absurd h (by decide)
      · exact hty h
    · intro hmem
      rcases List.mem_append.mp hmem with h | h
      · exact absurd h (by decide)
      · exact pipe_not_mem_intToChars _ h
    · intro hmem
      rcases List.mem_append.mp hmem with h | h
      · exact absurd h (by decide)
      · exact hst h
    · intro hmem
      rcases List.mem_append.mp hmem with h | h
      · exact absurd h (by decide)
      · exact hen h
  rfl

theorem kvPairs_payload_segs (idv userv typev allowv startv endv : Str) :
    kvPairs [str "id=" ++ idv, str "user=" ++ userv, str "type=" ++ typev,
             str "allow=" ++ allowv, str "start=" ++ startv, str "end=" ++ endv]
      = [(str "id", idv), (str "user", userv), (str "type", typev),
         (str "allow", allowv), (str "start", startv), (str "end", endv)] := by
  rw [kvPairs_eq_filterMap]
  have e1 : splitFirst '=' (str "id=" ++ idv) = some (str "id", idv) := by
    rw [show str "id=" ++ idv = str "id" ++ '=' :: idv from rfl]
    exact splitFirst_append (by decide)
  have e2 : splitFirst '=' (str "user=" ++ userv) = some (str "user", userv) := by
    rw [show str "user=" ++ userv = str "user" ++ '=' :: userv from rfl]
    exact splitFirst_append (by decide)
  have e3 : splitFirst '=' (str "type=" ++ typev) = some (str "type", typev) := by
    rw [show str "type=" ++ typev = str "type" ++ '=' :: typev from rfl]
    exact splitFirst_append (by decide)
  have e4 : splitFirst '=' (str "allow=" ++ allowv) = some (str "allow", allowv) := by
    rw [show str "allow=" ++ allowv = str "allow" ++ '=' :: allowv from rfl]
    exact splitFirst_append (by decide)
  have e5 : splitFirst '=' (str "start=" ++ startv) = some (str "start", startv) := by
    rw [show str "start=" ++ startv = str "start" ++ '=' :: startv from rfl]
    exact splitFirst_append (by decide)
  have e6 : splitFirst '=' (str "end=" ++ endv) = some (str "end", endv) := by
    rw [show str "end=" ++ endv = str "end" ++ '=' :: endv from rfl]
    exact splitFirst_append (by decide)
  simp [List.filterMap_cons, e1, e2, e3, e4, e5, e6]

theorem parse_payload_of_kv {p : Str} (hm : hasMagic p = true)
    {i u ty al s e : Str} {a : Int}
    (h1 : dictGet (kvPairs (segsOf p)) (str "id") = some i)
    (h2 : dictGet (kvPairs (segsOf p)) (str "user") = some u)
    (h3 : dictGet (kvPairs (segsOf p)) (str "type") = some ty)
    (h4 : dictGet (kvPairs (segsOf p)) (str "allow") = some al)
    (h5 : dictGet (kvPairs (segsOf p)) (str "start") = some s)
    (h6 : dictGet (kvPairs (segsOf p)) (str "end") = some e)
    (hal : pyInt al = some a) :
    parse_payload p = some ⟨i, u, ty, a, s, e, p⟩ := by
  simp only [parse_payload, hm, Bool.true_eq_false, if_false, requiredKeys,
    List.all_cons, List.all_nil, h1, h2, h3, h4, h5, h6, hal, Option.isSome_some,
    Bool.and_true, Bool.and_self, Bool.true_and]

theorem parse_make_payload (t : Token) (hid : '|' ∉ t.id) (hus : '|' ∉ t.user)
    (hty : '|' ∉ t.type) (hst : '|' ∉ t.start) (hen : '|' ∉ t.stop) :
    parse_payload (make_payload t)
      = some ⟨t.id, t.user, t.type, t.allowance, t.start, t.stop, make_payload t⟩ := by
  have hkv : kvPairs (segsOf (make_payload t))
      = [(str "id", t.id), (str "user", t.user), (str "type", t.type),
         (str "allow", intToChars t.allowance), (str "start", t.start),
         (str "end", t.stop)] := by
    rw [segsOf_make_payload t hid hus hty hst hen, kvPairs_payload_segs]
  apply parse_payload_of_kv
  · rfl
  · rw [hkv]; rfl
  · rw [hkv]; rfl
  · rw [hkv]; rfl
  · rw [hkv]; rfl
  · rw [hkv]; rfl
  · rw [hkv]; rfl
  · exact pyInt_intToChars t.allowance

theorem update_token_used_decomp {rows : List Token} {tid : Str} {t₀ : Token}
    (nu : Int) (ns : Str)
    (hf : rows.find? (fun t => decide (t.id = tid)) = some t₀) :
    ∃ pre post, rows = pre ++ t₀ :: post ∧ (∀ u ∈ pre, u.id ≠ tid) ∧
      update_token_used rows tid nu ns none =
        (none, pre ++ ({ t₀ with used := nu, status := if ns = [] then t₀.status else ns }) :: post) := by
  obtain ⟨pre, post, hrows, hpre⟩ := find?_decomp hf
  have hid : t₀.id = tid := by simpa using List.find?_some hf
  refine ⟨pre, post, hrows, hpre, ?_⟩
  unfold update_token_used
  rw [hf]
  simp only [Option.isNone_some, Bool.false_eq_true, if_false]
  rw [hrows, write_used_cell_append post hpre hid nu]
  by_cases hns : ns = []
  · rw [if_pos hns, if_pos hns]
  · rw [if_neg hns, if_neg hns,
        write_status_cell_append post hpre (show ({ t₀ with used := nu }).id = tid from hid) ns]

theorem redeem_success_eq {st : Sheets} {scan ap today now : Str} {parsed : Parsed}
    {token : Token}
    (hp : parse_payload (pyStrip scan) = some parsed)
    (hf : st.tokens.find? (fun t => decide (t.id = parsed.id)) = some token)
    (hs : token.status = ACTIVE)
    (hv : within_validity today token.start token.stop = true)
    (hr : 0 < token.allowance - token.used)
    (uf : Option UpdateFault) (af : Option Str) :
    redeem st scan ap ap today now uf af =
      (match update_token_used st.tokens token.id (token.used + 1)
               (if token.used + 1 < token.allowance then ACTIVE else EXHAUSTED) uf with
       | (some e, rows1) => (Outcome.updateFailed e, { st with tokens := rows1 })
       | (none, rows1) =>
         match af with
         | some e => (Outcome.updateFailed e, { st with tokens := rows1 })
         | none =>
           (Outcome.useRecorded,
            { tokens := rows1, uses := st.uses ++ [⟨now, token.id, token.user, str "scan"⟩] })) := by
  have hr' : ¬(token.allowance - token.used ≤ 0) := by omega
  simp [redeem, hp, hf, hs, hv, hr']

theorem redeem_not_active_eq {st : Sheets} {scan a ap today now : Str} {parsed : Parsed}
    {token : Token} (uf : Option UpdateFault) (af : Option Str)
    (ha : a = ap)
    (hp : parse_payload (pyStrip scan) = some parsed)
    (hf : st.tokens.find? (fun t => decide (t.id = parsed.id)) = some token)
    (hs : token.status ≠ ACTIVE) :
    redeem st scan a ap today now uf af = (Outcome.tokenNotActive, st) := by
  subst ha
  simp [redeem, hp, hf, hs]

theorem redeem_out_of_window_eq {st : Sheets} {scan a ap today now : Str} {parsed : Parsed}
    {token : Token} (uf : Option UpdateFault) (af : Option Str)
    (ha : a = ap)
    (hp : parse_payload (pyStrip scan) = some parsed)
    (hf : st.tokens.find? (fun t => decide (t.id = parsed.id)) = some token)
    (hs : token.status = ACTIVE)
    (hv : within_validity today token.start token.stop = false) :
    redeem st scan a ap today now uf af = (Outcome.outOfWindow, st) := by
  subst ha
  simp [redeem, hp, hf, hs, hv]

theorem redeem_cases (st : Sheets) (scan a ap today now : Str)
    (uf : Option UpdateFault) (af : Option Str) :
    (redeem st scan a ap today now uf af).2 = st ∨
    (∃ parsed token rows1 e,
       parse_payload (pyStrip scan) = some parsed ∧
       st.tokens.find? (fun t => decide (t.id = parsed.id)) = some token ∧
       token.status = ACTIVE ∧ 0 < token.allowance - token.used ∧
       update_token_used st.tokens token.id (token.used + 1)
         (if token.used + 1 < token.allowance then ACTIVE else EXHAUSTED) uf = (some e, rows1) ∧
       redeem st scan a ap today now uf af =
         (Outcome.updateFailed e, { st with tokens := rows1 })) ∨
    (∃ parsed token rows1 e,
       parse_payload (pyStrip scan) = some parsed ∧
       st.tokens.find? (fun t => decide (t.id = parsed.id)) = some token ∧
       token.status = ACTIVE ∧ 0 < token.allowance - token.used ∧
       update_token_used st.tokens token.id (token.used + 1)
         (if token.used + 1 < token.allowance then ACTIVE else EXHAUSTED) uf = (none, rows1) ∧
       af = some e ∧
       redeem st scan a ap today now uf af =
         (Outcome.updateFailed e, { st with tokens := rows1 })) ∨
    (∃ parsed token rows1,
       parse_payload (pyStrip scan) = some parsed ∧
       st.tokens.find? (fun t => decide (t.id = parsed.id)) = some token ∧
       token.status = ACTIVE ∧ 0 < token.allowance - token.used ∧
       update_token_used st.tokens token.id (token.used + 1)
         (if token.used + 1 < token.allowance then ACTIVE else EXHAUSTED) uf = (none, rows1) ∧
       af = none ∧
       redeem st scan a ap today now uf af =
         (Outcome.useRecorded,
          { tokens := rows1, uses := st.uses ++ [⟨now, token.id, token.user, str "scan"⟩] })) := by
  unfold redeem
  dsimp only
  repeat' split
  all_goals try (exact Or.inl rfl)
  · exact Or.inr (Or.inl ⟨_, _, _, _, by assumption, by assumption, by tauto, by omega,
      by assumption, rfl⟩)
  · exact Or.inr (Or.inr (Or.inl ⟨_, _, _, _, by assumption, by assumption, by tauto,
      by omega, by assumption, rfl, rfl⟩))
  · exact Or.inr (Or.inr (Or.inr ⟨_, _, _, by assumption, by assumption, by tauto,
      by omega, by assumption, rfl, rfl⟩))

theorem redeem_state_unchanged {st : Sheets} {scan a ap today now : Str}
    {uf : Option UpdateFault} {af : Option Str}
    (h1 : ∀ e, (redeem st scan a ap today now uf af).1 ≠ Outcome.updateFailed e)
    (h2 : (redeem st scan a ap today now uf af).1 ≠ Outcome.useRecorded) :
    (redeem st scan a ap today now uf af).2 = st := by
  rcases redeem_cases st scan a ap today now uf af with h | h | h | h
  · exact h
  · obtain ⟨_, _, _, e, _, _, _, _, _, heq⟩ := h
    exact absurd (by rw [heq] : (redeem st scan a ap today now uf af).1 = Outcome.updateFailed e)
      (h1 e)
  · obtain ⟨_, _, _, e, _, _, _, _, _, _, heq⟩ := h
    exact absurd (by rw [heq] : (redeem st scan a ap today now uf af).1 = Outcome.updateFailed e)
      (h1 e)
  · obtain ⟨_, _, _, _, _, _, _, _, _, heq⟩ := h
    exact absurd (by rw [heq] : (redeem st scan a ap today now uf af).1 = Outcome.useRecorded) h2

theorem generate_qr_some {st st' : Sheets} {g_user g_type g_start g_end : Str}
    {g_allow : Int} {token_id issued g_admin admin_pass : Str}
    (h : generate_qr st g_user g_type g_start g_end g_allow token_id issued g_admin
          admin_pass = some st') :
    st' = { st with
            tokens := st.tokens
              ++ [mkToken token_id g_user g_type g_start g_end g_allow issued] } := by
  unfold generate_qr at h
  repeat' split at h
  all_goals simp_all

theorem bounds_of_update {st : Sheets} (hb : ∀ t ∈ st.tokens, TokenBounds t)
    {parsed : Parsed} {token : Token} {uf : Option UpdateFault}
    {r : Option Str} {rows1 : List Token}
    (hf : st.tokens.find? (fun t => decide (t.id = parsed.id)) = some token)
    (hr : 0 < token.allowance - token.used)
    (hupd : update_token_used st.tokens token.id (token.used + 1)
        (if token.used + 1 < token.allowance then ACTIVE else EXHAUSTED) uf = (r, rows1)) :
    ∀ t ∈ rows1, TokenBounds t := by
  intro t ht
  have hid : token.id = parsed.id := by simpa using List.find?_some hf
  rcases update_token_used_mem hupd t ht with hmem | ⟨t₀, hft₀, hteq⟩
  · exact hb t hmem
  · have hsame : st.tokens.find? (fun x => decide (x.id = token.id)) = some token := by
      rw [find?_congr (fun x => by rw [hid]) st.tokens]
      exact hf
    rw [hsame] at hft₀
    cases Option.some.inj hft₀
    obtain ⟨h0, h1⟩ := hb token (List.mem_of_find?_eq_some hf)
    rcases hteq with rfl | rfl
    · exact ⟨by dsimp only; omega, by dsimp only; omega⟩
    · exact ⟨by dsimp only; omega, by dsimp only; omega⟩

theorem inv_of_update_none {st : Sheets} (hinv : ∀ t ∈ st.tokens, TokenInv t)
    {parsed : Parsed} {token : Token} {uf : Option UpdateFault} {rows1 : List Token}
    (hf : st.tokens.find? (fun t => decide (t.id = parsed.id)) = some token)
    (hr : 0 < token.allowance - token.used)
    (hupd : update_token_used st.tokens token.id (token.used + 1)
        (if token.used + 1 < token.allowance then ACTIVE else EXHAUSTED) uf = (none, rows1)) :
    ∀ t ∈ rows1, TokenInv t := by
  obtain ⟨t₀, pre, post, hf0, hrows, hpre, hrows1⟩ := update_token_used_eq_none hupd
  have hid : token.id = parsed.id := by simpa using List.find?_some hf
  have hsame : st.tokens.find? (fun x => decide (x.id = token.id)) = some token := by
    rw [find?_congr (fun x => by rw [hid]) st.tokens]
    exact hf
  rw [hsame] at hf0
  cases Option.some.inj hf0
  intro t ht
  rw [hrows1] at ht
  rcases List.mem_append.mp ht with hm | hm
  · exact hinv t (by rw [hrows]; exact List.mem_append.mpr (Or.inl hm))
  · rcases List.mem_cons.mp hm with rfl | hm
    · obtain ⟨h0, h1, h2⟩ := hinv token (List.mem_of_find?_eq_some hf)
      refine ⟨by dsimp only; omega, by dsimp only; omega, ?_⟩
      dsimp only
      by_cases hlt : token.used + 1 < token.allowance
      · rw [if_pos hlt, if_neg (by decide : ¬((ACTIVE : Str) = []))]
        exact iff_of_false (by decide) (by omega)
      · rw [if_neg hlt, if_neg (by decide : ¬((EXHAUSTED : Str) = []))]
        exact iff_of_true rfl (by omega)
    · exact hinv t (by rw [hrows]; exact List.mem_append.mpr (Or.inr (List.mem_cons_of_mem _ hm)))

theorem redeem_preserves_bounds {st : Sheets} (hb : ∀ t ∈ st.tokens, TokenBounds t)
    (scan a ap today now : Str) (uf : Option UpdateFault) (af : Option Str) :
    ∀ t ∈ (redeem st scan a ap today now uf af).2.tokens, TokenBounds t := by
  rcases redeem_cases st scan a ap today now uf af with h | h | h | h
  · rw [h]; exact hb
  · obtain ⟨parsed, token, rows1, e, hp, hf, hs, hr, hupd, heq⟩ := h
    rw [heq]
    exact bounds_of_update hb hf hr hupd
  · obtain ⟨parsed, token, rows1, e, hp, hf, hs, hr, hupd, haf, heq⟩ := h
    rw [heq]
    exact bounds_of_update hb hf hr hupd
  · obtain ⟨parsed, token, rows1, hp, hf, hs, hr, hupd, haf, heq⟩ := h
    rw [heq]
    exact bounds_of_update hb hf hr hupd

theorem redeem_preserves_inv_clean {st : Sheets} (hinv : ∀ t ∈ st.tokens, TokenInv t)
    (scan a ap today now : Str) (uf : Option UpdateFault) (af : Option Str)
    (hok : ∀ e, uf ≠ some (UpdateFault.beforeStatus e)) :
    ∀ t ∈ (redeem st scan a ap today now uf af).2.tokens, TokenInv t := by
  rcases redeem_cases st scan a ap today now uf af with h | h | h | h
  · rw [h]; exact hinv
  · obtain ⟨parsed, token, rows1, e, hp, hf, hs, hr, hupd, heq⟩ := h
    rw [heq]
    intro t ht
    dsimp only at ht
    rw [update_token_used_raised hupd hok] at ht
    exact hinv t ht
  · obtain ⟨parsed, token, rows1, e, hp, hf, hs, hr, hupd, haf, heq⟩ := h
    rw [heq]
    exact inv_of_update_none hinv hf hr hupd
  · obtain ⟨parsed, token, rows1, hp, hf, hs, hr, hupd, haf, heq⟩ := h
    rw [heq]
    exact inv_of_update_none hinv hf hr hupd

theorem reach_bounds {st : Sheets} (h : Reach st) : ∀ t ∈ st.tokens, TokenBounds t := by
  induction h with
  | init => intro t ht; simp at ht
  | gen g_user g_type g_start g_end g_allow token_id issued g_admin admin_pass hallow
      hgen hr ih =>
    have he := generate_qr_some hgen
    subst he
    intro t ht
    rcases List.mem_append.mp ht with hm | hm
    · exact ih t hm
    · have ht' : t = mkToken token_id g_user g_type g_start g_end g_allow issued :=
        List.mem_singleton.mp hm
      subst ht'
      exact ⟨by simp [mkToken], by simp [mkToken]; omega⟩
  | use scan_text admin2 admin_pass today_iso now_ts updateFault appendFault hr ih =>
    exact redeem_preserves_bounds ih scan_text admin2 admin_pass today_iso now_ts
      updateFault appendFault

theorem reachClean_inv {st : Sheets} (h : ReachClean st) :
    ∀ t ∈ st.tokens, TokenInv t := by
  induction h with
  | init => intro t ht; simp at ht
  | gen g_user g_type g_start g_end g_allow token_id issued g_admin admin_pass hallow
      hgen hr ih =>
    have he := generate_qr_some hgen
    subst he
    intro t ht
    rcases List.mem_append.mp ht with hm | hm
    · exact ih t hm
    · have ht' : t = mkToken token_id g_user g_type g_start g_end g_allow issued :=
        List.mem_singleton.mp hm
      subst ht'
      refine ⟨by simp [mkToken], by simp [mkToken]; omega, ?_⟩
      simp only [mkToken]
      exact iff_of_false (by decide) (by omega)
  | use scan_text admin2 admin_pass today_iso now_ts updateFault appendFault hok hr ih =>
    exact redeem_preserves_inv_clean ih scan_text admin2 admin_pass today_iso now_ts
      updateFault appendFault hok

theorem redeem_preserves_exhausted {st : Sheets} (scan a ap today now : Str)
    (uf : Option UpdateFault) (af : Option Str) (i : Nat) (t : Token)
    (hg : st.tokens.get? i = some t) (hs : t.status = EXHAUSTED) :
    (redeem st scan a ap today now uf af).2.tokens.get? i = some t := by
  rcases redeem_cases st scan a ap today now uf af with h | h | h | h
  · rw [h]; exact hg
  · obtain ⟨parsed, token, rows1, e, hp, hf, hsA, hr, hupd, heq⟩ := h
    rw [heq]
    rcases update_token_used_get? hupd i t hg with h1 | h1
    · exact h1
    · exfalso
      have hid : token.id = parsed.id := by simpa using List.find?_some hf
      rw [find?_congr (fun x => by rw [hid]) st.tokens, hf] at h1
      have ht : token = t := Option.some.inj h1
      subst ht
      rw [hsA] at hs
      exact absurd hs (by decide)
  · obtain ⟨parsed, token, rows1, e, hp, hf, hsA, hr, hupd, haf, heq⟩ := h
    rw [heq]
    rcases update_token_used_get? hupd i t hg with h1 | h1
    · exact h1
    · exfalso
      have hid : token.id = parsed.id := by simpa using List.find?_some hf
      rw [find?_congr (fun x => by rw [hid]) st.tokens, hf] at h1
      have ht : token = t := Option.some.inj h1
      subst ht
      rw [hsA] at hs
      exact absurd hs (by decide)
  · obtain ⟨parsed, token, rows1, hp, hf, hsA, hr, hupd, haf, heq⟩ := h
    rw [heq]
    rcases update_token_used_get? hupd i t hg with h1 | h1
    · exact h1
    · exfalso
      have hid : token.id = parsed.id := by simpa using List.find?_some hf
      rw [find?_congr (fun x => by rw [hid]) st.tokens, hf] at h1
      have ht : token = t := Option.some.inj h1
      subst ht
      rw [hsA] at hs
      exact absurd hs (by decide)

theorem redeemMany_preserves_exhausted (calls : List RedeemCall) :
    ∀ (st : Sheets) (i : Nat) (t : Token),
      st.tokens.get? i = some t → t.status = EXHAUSTED →
      (redeemMany st calls).tokens.get? i = some t := by
  induction calls with
  | nil => intro st i t hg _; exact hg
  | cons c cs ih =>
    intro st i t hg hs
    exact ih _ i t
      (redeem_preserves_exhausted c.scan_text c.admin2 c.admin_pass c.today_iso
        c.now_ts c.updateFault c.appendFault i t hg hs) hs

theorem hasMagic_nil : hasMagic [] = false := rfl

theorem parse_payload_eq_none_iff (p : Str) :
    parse_payload p = none ↔
      (p = [] ∨ hasMagic p = false ∨
       (∃ k ∈ requiredKeys, dictGet (kvPairs (segsOf p)) k = none) ∨
       allowNotInt p = true) := by
  cases hm : hasMagic p with
  | false => simp [parse_payload, hm]
  | true =>
    have hne : p ≠ [] := by
      rintro rfl
      rw [hasMagic_nil] at hm
      exact absurd hm (by decide)
    have hksome :
        requiredKeys.all (fun k => (dictGet (kvPairs (segsOf p)) k).isSome) = false ∨
        ∀ k ∈ requiredKeys, (dictGet (kvPairs (segsOf p)) k).isSome = true := by
      cases hall : requiredKeys.all (fun k => (dictGet (kvPairs (segsOf p)) k).isSome) with
      | false => exact Or.inl rfl
      | true => exact Or.inr (fun k hk => List.all_eq_true.mp hall k hk)
    rcases hksome with hall | hall
    · have hmiss : ∃ k ∈ requiredKeys, dictGet (kvPairs (segsOf p)) k = none := by
        by_contra hno
        push_neg at hno
        have : requiredKeys.all (fun k => (dictGet (kvPairs (segsOf p)) k).isSome) = true :=
          List.all_eq_true.mpr (fun k hk => by
            cases hd : dictGet (kvPairs (segsOf p)) k with
            | none => exact absurd hd (hno k hk)
            | some v => rfl)
        rw [this] at hall
        exact absurd hall (by decide)
      rw [show parse_payload p = none from by simp [parse_payload, hm, hall]]
      exact iff_of_true rfl (Or.inr (Or.inr (Or.inl hmiss)))
    · obtain ⟨iv, hiv⟩ := Option.isSome_iff_exists.mp (hall (str "id") (by simp [requiredKeys]))
      obtain ⟨uv, huv⟩ := Option.isSome_iff_exists.mp (hall (str "user") (by simp [requiredKeys]))
      obtain ⟨tv, htv⟩ := Option.isSome_iff_exists.mp (hall (str "type") (by simp [requiredKeys]))
      obtain ⟨av, hav⟩ := Option.isSome_iff_exists.mp (hall (str "allow") (by simp [requiredKeys]))
      obtain ⟨sv, hsv⟩ := Option.isSome_iff_exists.mp (hall (str "start") (by simp [requiredKeys]))
      obtain ⟨ev, hev⟩ := Option.isSome_iff_exists.mp (hall (str "end") (by simp [requiredKeys]))
      have hnomiss : ¬ ∃ k ∈ requiredKeys, dictGet (kvPairs (segsOf p)) k = none := by
        rintro ⟨k, hk, hnone⟩
        have := hall k hk
        rw [hnone] at this
        exact absurd this (by decide)
      cases hal : pyInt av with
      | some a =>
        have hparse : parse_payload p = some ⟨iv, uv, tv, a, sv, ev, p⟩ :=
          parse_payload_of_kv hm hiv huv htv hav hsv hev hal
        rw [hparse]
        apply iff_of_false (by simp)
        rintro (h1 | h1 | h1 | h1)
        · exact hne h1
        · simp [hm] at h1
        · exact hnomiss h1
        · unfold allowNotInt at h1
          rw [hav] at h1
          dsimp only at h1
          rw [hal] at h1
          simp at h1
      | none =>
        have hparse : parse_payload p = none := by
          simp only [parse_payload, hm, Bool.true_eq_false, if_false, requiredKeys,
            List.all_cons, List.all_nil, hiv, huv, htv, hav, hsv, hev, hal,
            Option.isSome_some, Bool.and_true, Bool.and_self, Bool.true_and]
        rw [hparse]
        refine iff_of_true rfl (Or.inr (Or.inr (Or.inr ?_)))
        simp [allowNotInt, hav, hal]

theorem fields_match_eq (i u ty al s e : Str) (p q : Str) :
    (match pyInt al with
     | some a => some (⟨i, u, ty, a, s, e, p⟩ : Parsed)
     | none => none).map Parsed.fields
    = (match pyInt al with
       | some a => some (⟨i, u, ty, a, s, e, q⟩ : Parsed)
       | none => none).map Parsed.fields := by
  cases pyInt al <;> simp [Parsed.fields]

theorem parse_fields_congr {p q : Str} (hp : hasMagic p = true) (hq : hasMagic q = true)
    (h : ∀ k ∈ requiredKeys, dictGet (kvPairs (segsOf p)) k = dictGet (kvPairs (segsOf q)) k) :
    (parse_payload p).map Parsed.fields = (parse_payload q).map Parsed.fields := by
  have h1 := h (str "id") (by simp [requiredKeys])
  have h2 := h (str "user") (by simp [requiredKeys])
  have h3 := h (str "type") (by simp [requiredKeys])
  have h4 := h (str "allow") (by simp [requiredKeys])
  have h5 := h (str "start") (by simp [requiredKeys])
  have h6 := h (str "end") (by simp [requiredKeys])
  have hall : requiredKeys.all (fun k => (dictGet (kvPairs (segsOf p)) k).isSome)
      = requiredKeys.all (fun k => (dictGet (kvPairs (segsOf q)) k).isSome) := by
    simp only [requiredKeys, List.all_cons, List.all_nil, h1, h2, h3, h4, h5, h6]
  simp only [parse_payload, hp, hq, Bool.true_eq_false, if_false]
  rw [hall, h1, h2, h3, h4, h5, h6]
  cases requiredKeys.all (fun k => (dictGet (kvPairs (segsOf q)) k).isSome) with
  | false => simp
  | true =>
    simp only [Bool.true_eq_false, if_false]
    cases dictGet (kvPairs (segsOf q)) (str "id") <;>
      cases dictGet (kvPairs (segsOf q)) (str "user") <;>
      cases dictGet (kvPairs (segsOf q)) (str "type") <;>
      cases dictGet (kvPairs (segsOf q)) (str "allow") <;>
      cases dictGet (kvPairs (segsOf q)) (str "start") <;>
      cases dictGet (kvPairs (segsOf q)) (str "end") <;>
      first
        | rfl
        | exact fields_match_eq _ _ _ _ _ _ _ _

theorem parse_fields_perm {p q : Str} (hp : hasMagic p = true) (hq : hasMagic q = true)
    (hperm : (kvPairs (segsOf p)).Perm (kvPairs (segsOf q)))
    (hnd : ((kvPairs (segsOf p)).map Prod.fst).Nodup) :
    (parse_payload p).map Parsed.fields = (parse_payload q).map Parsed.fields :=
  parse_fields_congr hp hq (fun k _ => dictGet_perm hperm hnd k)

theorem parse_fields_extra {p q : Str} (hp : hasMagic p = true) (hq : hasMagic q = true)
    {s₁ s₂ : List Str} {seg : Str}
    (hsp : segsOf p = s₁ ++ s₂) (hsq : segsOf q = s₁ ++ seg :: s₂)
    (hseg : ∀ k v, splitFirst '=' seg = some (k, v) → k ∉ requiredKeys) :
    (parse_payload p).map Parsed.fields = (parse_payload q).map Parsed.fields := by
  apply parse_fields_congr hp hq
  intro k hk
  rw [hsp, hsq, kvPairs_eq_filterMap, kvPairs_eq_filterMap,
      List.filterMap_append, List.filterMap_append, List.filterMap_cons]
  cases hsf : splitFirst '=' seg with
  | none => rfl
  | some kv =>
    rw [dictGet_append, dictGet_append, dictGet_cons]
    have hkne : kv.1 ≠ k := by
      intro he
      exact hseg kv.1 kv.2 (by rw [hsf]) (he ▸ hk)
    rw [if_neg hkne]
    cases dictGet (List.filterMap (splitFirst '=') s₂) k <;> simp

theorem parse_dup_user (t : Token) (u₂ : Str) (hid : '|' ∉ t.id) (hus : '|' ∉ t.user)
    (hty : '|' ∉ t.type) (hst : '|' ∉ t.start) (hen : '|' ∉ t.stop) (hu₂ : '|' ∉ u₂) :
    parse_payload (make_payload t ++ '|' :: (str "user=" ++ u₂))
      = some ⟨t.id, u₂, t.type, t.allowance, t.start, t.stop,
              make_payload t ++ '|' :: (str "user=" ++ u₂)⟩ := by
  have hsegs : segsOf (make_payload t ++ '|' :: (str "user=" ++ u₂))
      = [str "id=" ++ t.id, str "user=" ++ t.user, str "type=" ++ t.type,
         str "allow=" ++ intToChars t.allowance, str "start=" ++ t.start,
         str "end=" ++ t.stop] ++ [str "user=" ++ u₂] := by
    unfold segsOf
    rw [make_payload_structured,
        ← joinSep_snoc '|' (by simp) (str "user=" ++ u₂)]
    rw [show
        ([str "MTK", str "id=" ++ t.id, str "user=" ++ t.user, str "type=" ++ t.type,
          str "allow=" ++ intToChars t.allowance, str "start=" ++ t.start,
          str "end=" ++ t.stop] ++ [str "user=" ++ u₂])
        = [str "MTK", str "id=" ++ t.id, str "user=" ++ t.user, str "type=" ++ t.type,
           str "allow=" ++ intToChars t.allowance, str "start=" ++ t.start,
           str "end=" ++ t.stop, str "user=" ++ u₂] from rfl]
    rw [splitOnChar_joinSep (by simp) ?notmem]
    case notmem =>
      intro s hs
      simp only [List.mem_cons, List.not_mem_nil, or_false] at hs
      rcases hs with rfl | rfl | rfl | rfl | rfl | rfl | rfl | rfl
      · decide
      · intro hmem
        rcases List.mem_append.mp hmem with h | h
        · exact absurd h (by decide)
        · exact hid h
      · intro hmem
        rcases List.mem_append.mp hmem with h | h
        · exact absurd h (by decide)
        · exact hus h
      · intro hmem
        rcases List.mem_append.mp hmem with h | h
        · exact absurd h (by decide)
        · exact hty h
      · intro hmem
        rcases List.mem_append.mp hmem with h | h
        · exact absurd h (by decide)
        · exact pipe_not_mem_intToChars _ h
      · intro hmem
        rcases List.mem_append.mp hmem with h | h
        · exact absurd h (by decide)
        · exact hst h
      · intro hmem
        rcases List.mem_append.mp hmem with h | h
        · exact absurd h (by decide)
        · exact hen h
      · intro hmem
        rcases List.mem_append.mp hmem with h | h
        · exact absurd h (by decide)
        · exact hu₂ h
    rfl
  have hkv : kvPairs (segsOf (make_payload t ++ '|' :: (str "user=" ++ u₂)))
      = [(str "id", t.id), (str "user", t.user), (str "type", t.type),
         (str "allow", intToChars t.allowance), (str "start", t.start),
         (str "end", t.stop)] ++ [(str "user", u₂)] := by
    rw [hsegs, kvPairs_eq_filterMap, List.filterMap_append,
        ← kvPairs_eq_filterMap, ← kvPairs_eq_filterMap, kvPairs_payload_segs]
    have e : kvPairs [str "user=" ++ u₂] = [(str "user", u₂)] := by
      rw [kvPairs_eq_filterMap,
          show str "user=" ++ u₂ = str "user" ++ '=' :: u₂ from rfl]
      simp [List.filterMap_cons, splitFirst_append (by decide : '=' ∉ str "user")]
    rw [e]
  apply parse_payload_of_kv
  · rfl
  · rw [hkv, dictGet_snoc]
    rfl
  · rw [hkv, dictGet_snoc]
    rfl
  · rw [hkv, dictGet_snoc]
    rfl
  · rw [hkv, dictGet_snoc]
    rfl
  · rw [hkv, dictGet_snoc]
    rfl
  · rw [hkv, dictGet_snoc]
    rfl
  · exact pyInt_intToChars t.allowance

/-- Claim C1 counterexample: the store `partialWriteSheets` is reachable —
issue an allowance-1 token, then redeem it with the transport failing
between the two `update_cell` calls of `update_token_used` — and its token
row has `used = allowance` with status still `ACTIVE`, refuting the claimed
equivalence `status = EXHAUSTED ↔ used = allowance`. -/
theorem C1_counterexample :
    Reach partialWriteSheets ∧
    ∃ t ∈ partialWriteSheets.tokens, t.used = t.allowance ∧ t.status ≠ EXHAUSTED := by
  constructor
  · have h2 : Reach ⟨[oneUseTok], []⟩ :=
      Reach.gen (str "Pat") (str "Lunch") (str "2024-01-01") (str "2024-01-31") 1
        (str "Z1") (str "2024-01-01T09:00:00") (str "pw") (str "pw") (by omega)
        (by decide) Reach.init
    have h3 := Reach.use oneUseScan (str "pw") (str "pw") (str "2024-01-15") (str "t1")
      (some (UpdateFault.beforeStatus (str "APIError"))) none h2
    have he : (redeem ⟨[oneUseTok], []⟩ oneUseScan (str "pw") (str "pw")
        (str "2024-01-15") (str "t1") (some (UpdateFault.beforeStatus (str "APIError")))
        none).2 = partialWriteSheets := by decide
    exact he ▸ h3
  · exact ⟨{ oneUseTok with used := 1 }, by decide, by decide, by decide⟩

/-- Claim C1 (amended): issuance creates tokens with `used = 0` and
`status = ACTIVE`; along every reachable execution the counter half
`0 ≤ used ≤ allowance` of the invariant holds for every token row; and the
full invariant `status = EXHAUSTED ↔ used = allowance` additionally holds
along every execution in which no transport fault strikes between the two
`update_cell` calls of `update_token_used` (a fault there leaves
`used = allowance` with a stale `ACTIVE` status, as the counterexample
shows). -/
theorem C1_reachable_token_invariant_amended :
    (∀ token_id g_user g_type g_start g_end g_allow issued,
       (mkToken token_id g_user g_type g_start g_end g_allow issued).used = 0 ∧
       (mkToken token_id g_user g_type g_start g_end g_allow issued).status = ACTIVE) ∧
    (∀ st : Sheets, Reach st → ∀ t ∈ st.tokens, TokenBounds t) ∧
    (∀ st : Sheets, ReachClean st → ∀ t ∈ st.tokens, TokenInv t) :=
  ⟨fun _ _ _ _ _ _ _ => ⟨rfl, rfl⟩, fun _ h => reach_bounds h, fun _ h => reachClean_inv h⟩

/-- Witness for C1: the amended theorem applied along a fault-free
(`ReachClean`) execution that issues and fully redeems an allowance-1 token
— its row satisfies the full invariant — and along the faulty (`Reach`)
execution reaching the partial-write store, whose row still satisfies the
counter bounds. -/
theorem C1_witness :
    (mkToken (str "Z1") (str "Pat") (str "Lunch") (str "2024-01-01") (str "2024-01-31")
       1 (str "2024-01-01T09:00:00")).used = 0 ∧
    TokenBounds { oneUseTok with used := 1 } ∧
    TokenInv { oneUseTok with used := 1, status := EXHAUSTED } := by
  refine ⟨(C1_reachable_token_invariant_amended.1 (str "Z1") (str "Pat") (str "Lunch")
      (str "2024-01-01") (str "2024-01-31") 1 (str "2024-01-01T09:00:00")).1, ?_, ?_⟩
  · have h2 : Reach ⟨[oneUseTok], []⟩ :=
      Reach.gen (str "Pat") (str "Lunch") (str "2024-01-01") (str "2024-01-31") 1
        (str "Z1") (str "2024-01-01T09:00:00") (str "pw") (str "pw") (by omega)
        (by decide) Reach.init
    exact C1_reachable_token_invariant_amended.2.1 _
      (Reach.use oneUseScan (str "pw") (str "pw") (str "2024-01-15") (str "t1")
        (some (UpdateFault.beforeStatus (str "APIError"))) none h2)
      { oneUseTok with used := 1 } (by decide)
  · have h2 : ReachClean ⟨[oneUseTok], []⟩ :=
      ReachClean.gen (str "Pat") (str "Lunch") (str "2024-01-01") (str "2024-01-31") 1
        (str "Z1") (str "2024-01-01T09:00:00") (str "pw") (str "pw") (by omega)
        (by decide) ReachClean.init
    exact C1_reachable_token_invariant_amended.2.2 _
      (ReachClean.use oneUseScan (str "pw") (str "pw") (str "2024-01-15") (str "t1")
        none none (fun e h => Option.noConfusion h) h2)
      { oneUseTok with used := 1, status := EXHAUSTED } (by decide)

/-- Claim C2 counterexample: for the issuable token whose `user` field is
`"x|y"`, decoding the encoded payload does not recover the six identity
fields; the decoded `user` is `"x"`. -/
theorem C2_counterexample :
    parse_payload (make_payload pipeUserTok)
      ≠ some ⟨pipeUserTok.id, pipeUserTok.user, pipeUserTok.type, pipeUserTok.allowance,
              pipeUserTok.start, pipeUserTok.stop, make_payload pipeUserTok⟩ ∧
    (parse_payload (make_payload pipeUserTok)).map Parsed.user = some (str "x") ∧
    pipeUserTok.user = str "x|y" := by
  decide

/-- Claim C2 (amended): provided no identity string field contains the
separator `|`, decoding the encoded payload recovers exactly the six
identity fields supplied to encoding, and the encoding (hence the decoding)
does not depend on `used`, `status` or `issued_ts`. -/
theorem C2_roundtrip_amended (t : Token)
    (hid : '|' ∉ t.id) (hus : '|' ∉ t.user) (hty : '|' ∉ t.type)
    (hst : '|' ∉ t.start) (hen : '|' ∉ t.stop) :
    parse_payload (make_payload t)
      = some ⟨t.id, t.user, t.type, t.allowance, t.start, t.stop, make_payload t⟩ ∧
    (∀ u s ts, make_payload { t with used := u, status := s, issued_ts := ts }
      = make_payload t) :=
  ⟨parse_make_payload t hid hus hty hst hen, fun _ _ _ => rfl⟩

/-- Witness for C2: the round-trip at a concrete pipe-free token. -/
theorem C2_witness :
    parse_payload (make_payload sampleTok)
      = some ⟨sampleTok.id, sampleTok.user, sampleTok.type, sampleTok.allowance,
              sampleTok.start, sampleTok.stop, make_payload sampleTok⟩ :=
  (C2_roundtrip_amended sampleTok (by decide) (by decide) (by decide) (by decide)
    (by decide)).1

/-- Claim C3 evaluation: when the counter update succeeds and the log append
then raises, the handler reports the same `updateFailed` outcome (message
template "Failed to update token: {e}") that an update failure produces —
not a distinct partial-failure outcome — while the store already carries the
advanced counter and the log is missing the entry. -/
theorem C3_log_append_failure_evaluation :
    (redeem sampleSheets sampleScan (str "pw") (str "pw") (str "2024-01-15")
        (str "2024-01-15T12:00:00") none (some (str "APIError"))
      = (Outcome.updateFailed (str "APIError"),
         ⟨[{ sampleTok with used := 1, status := ACTIVE }], []⟩)) ∧
    (redeem sampleSheets sampleScan (str "pw") (str "pw") (str "2024-01-15")
        (str "2024-01-15T12:00:00") (some (UpdateFault.beforeUsed (str "APIError"))) none
      = (Outcome.updateFailed (str "APIError"), sampleSheets)) := by
  decide

/-- Claim C4: a redemption that passes every check persists
`newUsed = used + 1` with `newStatus = EXHAUSTED` exactly when
`newUsed = allowance` (and `ACTIVE` otherwise), and appends exactly one
redemption-log row carrying the current timestamp, the token id and the
token's user label. -/
theorem C4_success_updates_and_logs
    (st : Sheets) (scan pass today now : Str) (parsed : Parsed) (token : Token)
    (hp : parse_payload (pyStrip scan) = some parsed)
    (hf : st.tokens.find? (fun t => decide (t.id = parsed.id)) = some token)
    (hs : token.status = ACTIVE)
    (hv : within_validity today token.start token.stop = true)
    (hr : 0 < token.allowance - token.used) :
    ∃ rows,
      redeem st scan pass pass today now none none =
        (Outcome.useRecorded,
         ⟨rows, st.uses ++ [⟨now, token.id, token.user, str "scan"⟩]⟩) ∧
      rows.find? (fun t => decide (t.id = parsed.id)) =
        some ({ token with used := token.used + 1, status := if token.used + 1 = token.allowance then EXHAUSTED else ACTIVE }) := by
  have hid : token.id = parsed.id := by simpa using List.find?_some hf
  have hff : st.tokens.find? (fun t => decide (t.id = token.id)) = some token := by
    rw [find?_congr (fun x => by rw [hid]) st.tokens]
    exact hf
  obtain ⟨pre, post, hrows, hpre, hupd⟩ :=
    update_token_used_decomp (token.used + 1)
      (if token.used + 1 < token.allowance then ACTIVE else EXHAUSTED) hff
  have hstat : (if (if token.used + 1 < token.allowance then ACTIVE else EXHAUSTED) = []
        then token.status
        else (if token.used + 1 < token.allowance then ACTIVE else EXHAUSTED))
      = (if token.used + 1 = token.allowance then EXHAUSTED else ACTIVE) := by
    by_cases hlt : token.used + 1 < token.allowance
    · rw [if_pos hlt, if_neg (by decide : ¬((ACTIVE : Str) = [])), if_neg (by omega)]
    · rw [if_neg hlt, if_neg (by decide : ¬((EXHAUSTED : Str) = [])), if_pos (by omega)]
  obtain ⟨t₀, hf0, hfind⟩ := find?_update_token_used hupd
  rw [hff] at hf0
  cases Option.some.inj hf0
  rw [hstat] at hupd hfind
  refine ⟨pre ++ ({ token with used := token.used + 1, status := if token.used + 1 = token.allowance then EXHAUSTED else ACTIVE }) :: post, ?_, ?_⟩
  · rw [redeem_success_eq hp hf hs hv hr none none]
    rw [hupd]
  · rw [find?_congr (fun x => by rw [hid]) _] at hfind
    exact hfind

/-- Witness for C4: redeeming an allowance-2 token with `used = 1` succeeds
and flips its status to `EXHAUSTED`. -/
theorem C4_witness :
    (redeem ⟨[{ sampleTok with used := 1 }], []⟩ sampleScan (str "pw") (str "pw")
        (str "2024-01-20") (str "t2") none none).1 = Outcome.useRecorded ∧
    ((redeem ⟨[{ sampleTok with used := 1 }], []⟩ sampleScan (str "pw") (str "pw")
        (str "2024-01-20") (str "t2") none none).2.tokens.find?
          (fun t => decide (t.id = str "AB12"))).map Token.status = some EXHAUSTED := by
  obtain ⟨rows, h1, h2⟩ := C4_success_updates_and_logs
    ⟨[{ sampleTok with used := 1 }], []⟩ sampleScan (str "pw") (str "2024-01-20")
    (str "t2")
    ⟨str "AB12", str "Asha", str "Lunch", 2, str "2024-01-01", str "2024-01-31",
     pyStrip sampleScan⟩
    { sampleTok with used := 1 }
    (by decide) (by decide) (by decide) (by decide) (by decide)
  rw [h1]
  refine ⟨rfl, ?_⟩
  have hcong : rows.find? (fun t => decide (t.id = str "AB12"))
      = rows.find? (fun t => decide (t.id =
          (⟨str "AB12", str "Asha", str "Lunch", 2, str "2024-01-01", str "2024-01-31",
            pyStrip sampleScan⟩ : Parsed).id)) :=
    find?_congr (fun x => rfl) rows
  dsimp only
  rw [hcong, h2]
  decide

/-- Claim C5: every redemption that is rejected by the payload, lookup,
status, window or remaining-allowance check leaves both worksheets
unchanged. -/
theorem C5_rejection_frame (st : Sheets) (scan a ap today now : Str)
    (uf : Option UpdateFault) (af : Option Str) (o : Outcome) (st' : Sheets)
    (h : redeem st scan a ap today now uf af = (o, st'))
    (ho : o = Outcome.invalidPayload ∨ o = Outcome.tokenNotFound ∨
          o = Outcome.tokenNotActive ∨ o = Outcome.outOfWindow ∨
          o = Outcome.noRemainingUses) :
    st' = st := by
  have h1 : ∀ e, (redeem st scan a ap today now uf af).1 ≠ Outcome.updateFailed e := by
    intro e
    rw [h]
    rcases ho with rfl | rfl | rfl | rfl | rfl <;> simp
  have h2 : (redeem st scan a ap today now uf af).1 ≠ Outcome.useRecorded := by
    rw [h]
    rcases ho with rfl | rfl | rfl | rfl | rfl <;> simp
  have h3 := redeem_state_unchanged h1 h2
  rw [h] at h3
  exact h3

/-- Witness for C5: an out-of-window rejection leaves the store unchanged. -/
theorem C5_witness :
    (redeem sampleSheets sampleScan (str "pw") (str "pw") (str "2024-02-05") (str "t")
        none none = (Outcome.outOfWindow, sampleSheets)) ∧
    sampleSheets = sampleSheets := by
  refine ⟨by decide, ?_⟩
  exact C5_rejection_frame sampleSheets sampleScan (str "pw") (str "pw")
    (str "2024-02-05") (str "t") none none Outcome.outOfWindow sampleSheets
    (by decide) (Or.inr (Or.inr (Or.inr (Or.inl rfl))))

/-- Claim C6: decoding is total and returns the invalid sentinel exactly when
the text is empty, lacks the magic marker, misses one of the six required
keys, or carries an `allow` value that is not an integer; the decoded
identity fields are insensitive to the order of the `key=value` segments
(for distinct keys) and to the insertion of a segment with an unrecognized
key. -/
theorem C6_decode_total :
    (∀ p : Str, parse_payload p = none ↔
       (p = [] ∨ hasMagic p = false ∨
        (∃ k ∈ requiredKeys, dictGet (kvPairs (segsOf p)) k = none) ∨
        allowNotInt p = true)) ∧
    (∀ p q : Str, hasMagic p = true → hasMagic q = true →
       (kvPairs (segsOf p)).Perm (kvPairs (segsOf q)) →
       ((kvPairs (segsOf p)).map Prod.fst).Nodup →
       (parse_payload p).map Parsed.fields = (parse_payload q).map Parsed.fields) ∧
    (∀ p q : Str, hasMagic p = true → hasMagic q = true →
       ∀ s₁ s₂ seg, segsOf p = s₁ ++ s₂ → segsOf q = s₁ ++ seg :: s₂ →
       (∀ k v, splitFirst '=' seg = some (k, v) → k ∉ requiredKeys) →
       (parse_payload p).map Parsed.fields = (parse_payload q).map Parsed.fields) :=
  ⟨parse_payload_eq_none_iff,
   fun _ _ hp hq hperm hnd => parse_fields_perm hp hq hperm hnd,
   fun _ _ hp hq _ _ _ hsp hsq hseg => parse_fields_extra hp hq hsp hsq hseg⟩

/-- Witness for C6: the scenario-F payload decodes to the sentinel, a
reordered payload decodes to the same identity fields, and an extra
unrecognized `zz=1` segment is ignored. -/
theorem C6_witness :
    parse_payload (str "MTK|id=ABC") = none ∧
    (parse_payload (str "MTK|id=A|user=U|type=L|allow=2|start=2024-01-01|end=2024-01-31")).map
        Parsed.fields
      = (parse_payload (str "MTK|user=U|id=A|type=L|allow=2|start=2024-01-01|end=2024-01-31")).map
          Parsed.fields ∧
    (parse_payload (str "MTK|id=A|user=U|type=L|allow=2|start=2024-01-01|end=2024-01-31")).map
        Parsed.fields
      = (parse_payload
          (str "MTK|id=A|user=U|type=L|allow=2|start=2024-01-01|end=2024-01-31|zz=1")).map
          Parsed.fields := by
  refine ⟨(C6_decode_total.1 (str "MTK|id=ABC")).mpr (by decide),
    C6_decode_total.2.1 _ _ rfl rfl (by decide) (by decide),
    C6_decode_total.2.2 _ _ rfl rfl
      [str "id=A", str "user=U", str "type=L", str "allow=2", str "start=2024-01-01",
       str "end=2024-01-31"] [] (str "zz=1") (by decide) (by decide) ?_⟩
  intro k v h
  rw [show splitFirst '=' (str "zz=1") = some (str "zz", str "1") from rfl] at h
  obtain ⟨rfl, rfl⟩ : str "zz" = k ∧ str "1" = v := by
    refine ⟨?_, ?_⟩ <;> injection h with h1 <;> cases h1 <;> rfl
  decide

/-- Claim C7 counterexample: `within_validity` applied to the malformed date
strings `"0"` and `"9"` returns `true`, not `false`. -/
theorem C7_counterexample :
    isIsoDateShape (str "0") = false ∧ isIsoDateShape (str "9") = false ∧
    within_validity (str "2024-01-15") (str "0") (str "9") = true := by
  decide

/-- Claim C7 (amended): `within_validity` returns `true` exactly when
`start ≤ today ≤ end` under lexicographic comparison of the strings — for
all string arguments, malformed dates included; no input makes it fail. -/
theorem C7_window_amended (today s e : Str) :
    within_validity today s e = true ↔ (s ≤ today ∧ today ≤ e) := by
  unfold within_validity
  rw [Bool.and_eq_true, pyStrLe_iff_le, pyStrLe_iff_le]

/-- Claim C8: a redemption that resolves to an `EXHAUSTED` token is rejected
(`tokenNotActive` — one of the two statuses the claim allows) without
touching the store, and no sequence of redemption calls ever changes a row
holding an `EXHAUSTED` token. -/
theorem C8_exhausted_stable :
    (∀ (st : Sheets) (scan ap today now : Str) (uf : Option UpdateFault)
       (af : Option Str) (parsed : Parsed) (token : Token),
       parse_payload (pyStrip scan) = some parsed →
       st.tokens.find? (fun t => decide (t.id = parsed.id)) = some token →
       token.status = EXHAUSTED →
       ((redeem st scan ap ap today now uf af).1 = Outcome.noRemainingUses ∨
        (redeem st scan ap ap today now uf af).1 = Outcome.tokenNotActive) ∧
       (redeem st scan ap ap today now uf af).2 = st) ∧
    (∀ (calls : List RedeemCall) (st : Sheets) (i : Nat) (t : Token),
       st.tokens.get? i = some t → t.status = EXHAUSTED →
       (redeemMany st calls).tokens.get? i = some t) := by
  constructor
  · intro st scan ap today now uf af parsed token hp hf hs
    have hne : token.status ≠ ACTIVE := by rw [hs]; decide
    have he : redeem st scan ap ap today now uf af = (Outcome.tokenNotActive, st) :=
      redeem_not_active_eq uf af rfl hp hf hne
    rw [he]
    exact ⟨Or.inr rfl, rfl⟩
  · intro calls st i t hg hs
    exact redeemMany_preserves_exhausted calls st i t hg hs

/-- Witness for C8: redeeming the exhausted sample token is rejected with
the store unchanged, and a redemption sequence leaves its row intact. -/
theorem C8_witness :
    (((redeem exhaustedSheets exhaustedScan (str "pw") (str "pw") (str "2024-01-15")
        (str "t") none none).1 = Outcome.noRemainingUses ∨
      (redeem exhaustedSheets exhaustedScan (str "pw") (str "pw") (str "2024-01-15")
        (str "t") none none).1 = Outcome.tokenNotActive) ∧
     (redeem exhaustedSheets exhaustedScan (str "pw") (str "pw") (str "2024-01-15")
        (str "t") none none).2 = exhaustedSheets) ∧
    (redeemMany exhaustedSheets
        [⟨exhaustedScan, str "pw", str "pw", str "2024-01-15", str "t", none, none⟩]).tokens.get? 0
      = some exhaustedTok := by
  refine ⟨C8_exhausted_stable.1 exhaustedSheets exhaustedScan (str "pw")
      (str "2024-01-15") (str "t") none none
      ⟨str "E1", str "Bo", str "Lunch", 2, str "2024-01-01", str "2024-01-31",
       pyStrip exhaustedScan⟩
      exhaustedTok (by decide) (by decide) (by decide),
    C8_exhausted_stable.2
      [⟨exhaustedScan, str "pw", str "pw", str "2024-01-15", str "t", none, none⟩]
      exhaustedSheets 0 exhaustedTok (by decide) (by decide)⟩

/-- Claim C9 counterexample: redeeming the exhausted sample token on a date
past its window fails with `tokenNotActive`, not `OutOfWindow`. -/
theorem C9_counterexample :
    within_validity (str "2024-02-05") exhaustedTok.start exhaustedTok.stop = false ∧
    (redeem exhaustedSheets exhaustedScan (str "pw") (str "pw") (str "2024-02-05")
        (str "t") none none).1 = Outcome.tokenNotActive := by
  decide

/-- Claim C9 (amended): for a token whose status is `ACTIVE`, redeeming on a
date outside the inclusive window fails with `OutOfWindow` regardless of how
much allowance remains: the window check precedes the remaining-allowance
check. -/
theorem C9_out_of_window_amended
    (st : Sheets) (scan ap today now : Str) (uf : Option UpdateFault) (af : Option Str)
    (parsed : Parsed) (token : Token)
    (hp : parse_payload (pyStrip scan) = some parsed)
    (hf : st.tokens.find? (fun t => decide (t.id = parsed.id)) = some token)
    (hs : token.status = ACTIVE)
    (hv : within_validity today token.start token.stop = false) :
    redeem st scan ap ap today now uf af = (Outcome.outOfWindow, st) :=
  redeem_out_of_window_eq uf af rfl hp hf hs hv

/-- Witness for C9: the sample (ACTIVE, non-exhausted) token redeemed on
2024-02-05, past its end date, is rejected with `outOfWindow`. -/
theorem C9_witness :
    redeem sampleSheets sampleScan (str "pw") (str "pw") (str "2024-02-05") (str "t")
      none none = (Outcome.outOfWindow, sampleSheets) :=
  C9_out_of_window_amended sampleSheets sampleScan (str "pw") (str "2024-02-05")
    (str "t") none none
    ⟨str "AB12", str "Asha", str "Lunch", 2, str "2024-01-01", str "2024-01-31",
     pyStrip sampleScan⟩
    sampleTok (by decide) (by decide) (by decide) (by decide)

/-- Claim C10: a later `key=value` segment overwrites an earlier one with
the same key — the `kv` lookup returns the value of the last occurrence —
and a payload carrying a duplicated `user` key decodes (it is not invalid)
to the value of its last `user` segment. -/
theorem C10_last_occurrence_wins :
    (∀ (kvs : List (Str × Str)) (k v k' : Str),
       dictGet (kvs ++ [(k, v)]) k' = if k = k' then some v else dictGet kvs k') ∧
    (∀ (t : Token) (u₂ : Str), '|' ∉ t.id → '|' ∉ t.user → '|' ∉ t.type →
       '|' ∉ t.start → '|' ∉ t.stop → '|' ∉ u₂ →
       parse_payload (make_payload t ++ '|' :: (str "user=" ++ u₂))
         = some ⟨t.id, u₂, t.type, t.allowance, t.start, t.stop,
                 make_payload t ++ '|' :: (str "user=" ++ u₂)⟩) :=
  ⟨fun kvs k v k' => dictGet_snoc kvs (k, v) k',
   fun t u₂ hid hus hty hst hen hu₂ => parse_dup_user t u₂ hid hus hty hst hen hu₂⟩

/-- Witness for C10: the overwrite law at a concrete dictionary, and the
sample payload with a duplicated `user` key decoding to the later value. -/
theorem C10_witness :
    dictGet ([(str "a", str "1")] ++ [(str "a", str "2")]) (str "a") = some (str "2") ∧
    parse_payload (make_payload sampleTok ++ '|' :: (str "user=" ++ str "Maya"))
      = some ⟨sampleTok.id, str "Maya", sampleTok.type, sampleTok.allowance,
              sampleTok.start, sampleTok.stop,
              make_payload sampleTok ++ '|' :: (str "user=" ++ str "Maya")⟩ := by
  constructor
  · rw [C10_last_occurrence_wins.1 [(str "a", str "1")] (str "a") (str "2") (str "a")]
    decide
  · exact C10_last_occurrence_wins.2 sampleTok (str "Maya") (by decide) (by decide)
      (by decide) (by decide) (by decide) (by decide)

end SheetsApp

